import Mathlib

/-! Tor: synchronisation primitives and reading the configuration.

A shallow embedding of `src/common/compat_threads.h` (atomic counter, emulated
condition variable, alert sockets, thread-local slots) and of `src/or/config.c`
(`config_compare`, `config_assign`, `config_get_commandlines`, `config_get_lines`,
`resolve_my_address`, `getconfig`), followed by the properties proved about them.

Conventions: a `size_t` is a natural number below `2 ^ bits`; a C `int` is an
`Int` in the range of 32 bits, arithmetic on it goes through `c_int`; a `char *` that may be `NULL` is an `Option String`; a linked list of
`struct config_line_t` is a `List config_line_t`.
-/

namespace Tor

/-- Conversion of an integer to a C `int` of 32 bits (two's complement): the value is
reduced modulo `2 ^ 32` into the range from `-2 ^ 31` to `2 ^ 31 - 1`. -/
def c_int (x : Int) : Int := (x + 2147483648) % 4294967296 - 2147483648

/-- The largest `int`, `INT_MAX`. -/
def INT_MAX : Int := 2147483647

/-- Saturation of an integer to a C `long` of 64 bits, as `strtol` does it: a value
out of range becomes `LONG_MIN` or `LONG_MAX`. -/
def clamp_long (x : Int) : Int :=
  if x < -9223372036854775808 then -9223372036854775808
  else if 9223372036854775807 < x then 9223372036854775807
  else x

/-! ## Atomic counter (`compat_threads.h`, the `HAVE_STDATOMIC_H` branch) -/

/-- The type `atomic_counter_t`: it holds one `size_t` value. -/
structure atomic_counter_t where
  val : Nat
deriving DecidableEq, Repr

/-- The function `atomic_counter_init`: `atomic_init(&counter->val, 0)`. -/
def atomic_counter_init (_counter : atomic_counter_t) : atomic_counter_t := ⟨0⟩

/-- The function `atomic_counter_add`: `atomic_fetch_add(&counter->val, add)`, unsigned
arithmetic on a word of `bits` bits; the fetched value is discarded. -/
def atomic_counter_add (bits : Nat) (counter : atomic_counter_t) (add : Nat) :
    atomic_counter_t :=
  ⟨(counter.val + add) % 2 ^ bits⟩

/-- The function `atomic_counter_sub`: `atomic_fetch_sub(&counter->val, sub)`, unsigned
arithmetic on a word of `bits` bits; the fetched value is discarded. -/
def atomic_counter_sub (bits : Nat) (counter : atomic_counter_t) (sub : Nat) :
    atomic_counter_t :=
  ⟨(counter.val + (2 ^ bits - sub % 2 ^ bits)) % 2 ^ bits⟩

/-- The function `atomic_counter_get`: `atomic_load(&counter->val)`. -/
def atomic_counter_get (counter : atomic_counter_t) : Nat := counter.val

/-- The function `atomic_counter_exchange`: `atomic_exchange(&counter->val, newval)`;
the first component is the returned old value, the second the counter afterwards. -/
def atomic_counter_exchange (counter : atomic_counter_t) (newval : Nat) :
    Nat × atomic_counter_t :=
  (counter.val, ⟨newval⟩)

/-- One call on a counter made by some thread: an add or a sub with its amount. -/
inductive counter_op where
  | add (amount : Nat)
  | sub (amount : Nat)
deriving DecidableEq, Repr

/-- Perform one call as a single atomic step. -/
def counter_op.apply (bits : Nat) (counter : atomic_counter_t) : counter_op → atomic_counter_t
  | .add a => atomic_counter_add bits counter a
  | .sub s => atomic_counter_sub bits counter s

/-- Perform a schedule of calls, one atomic step after the other. -/
def run_counter_ops (bits : Nat) (counter : atomic_counter_t) (sched : List counter_op) :
    atomic_counter_t :=
  sched.foldl (counter_op.apply bits) counter

/-- The amount a call adds (zero for a sub). -/
def counter_op.added : counter_op → Nat
  | .add a => a
  | .sub _ => 0

/-- The amount a call subtracts (zero for an add). -/
def counter_op.subtracted : counter_op → Nat
  | .add _ => 0
  | .sub s => s

/-- Sum of all added amounts of a list of calls. -/
def sum_added (ops : List counter_op) : Nat := (ops.map counter_op.added).sum

/-- Sum of all subtracted amounts of a list of calls. -/
def sum_subtracted (ops : List counter_op) : Nat := (ops.map counter_op.subtracted).sum

/-- The schedule `sched` is an interleaving of the per-thread sequences `threads`:
each step takes the next call of some thread, until every thread is finished. -/
inductive interleaving {α : Type} : List (List α) → List α → Prop where
  | done (threads : List (List α)) (h : ∀ t ∈ threads, t = []) : interleaving threads []
  | step (pre post : List (List α)) (op : α) (rest sched : List α)
      (h : interleaving (pre ++ rest :: post) sched) :
      interleaving (pre ++ (op :: rest) :: post) (op :: sched)

/-- A sequence of exchanges with the new values `newvals`: the returned old values in
call order, and the counter afterwards. -/
def exchange_seq (counter : atomic_counter_t) : List Nat → List Nat × atomic_counter_t
  | [] => ([], counter)
  | n :: ns =>
    let r := atomic_counter_exchange counter n
    let rest := exchange_seq r.2 ns
    (r.1 :: rest.1, rest.2)

/-! ## Condition variable (`tor_cond_t`, the emulated form) -/

/-- The type `tor_cond_t` in its emulated form: the wakeup object `event`, an
auto-reset event without queue depth (it is signalled or not), and the three `int`
fields `n_waiting`, `n_to_wake`, `generation`. -/
structure tor_cond_t where
  event : Bool
  n_waiting : Int
  n_to_wake : Int
  generation : Int
deriving DecidableEq, Repr

/-- Where a thread stands with respect to `tor_cond_wait`: outside of it; registered
(it has counted itself, recorded the generation and released the internal lock, and is
about to block); blocked on the wakeup object; or woken (it has returned from the
wakeup object and is about to re-check under the internal lock). -/
inductive wait_phase where
  | idle
  | registered
  | blocked
  | woken
deriving DecidableEq, Repr

/-- A condition variable together with the threads inside `tor_cond_wait` on it
(`waiters`, oldest registration first), the phase of every thread, the generation every
thread captured when it registered, and the threads that were released from a wait as
woken (`runnable`, in release order). -/
structure cond_state_t where
  cond : tor_cond_t
  waiters : List Nat
  phase : Nat → wait_phase
  generation_at_start : Nat → Int
  runnable : List Nat

/-- Modelled from the spec: `tor_cond_init`, whose body is not part of the header; a fresh
condition variable has no waiters, nothing to wake, generation zero and a wakeup
object that is not signalled. -/
def tor_cond_init : cond_state_t :=
  { cond := { event := false, n_waiting := 0, n_to_wake := 0, generation := 0 },
    waiters := [], phase := fun _ => .idle, generation_at_start := fun _ => 0,
    runnable := [] }

/-- Modelled from the spec: the beginning of `tor_cond_wait`, whose body is not part of
the header; under the internal lock the thread increments `n_waiting` and records the
current generation, then it releases the internal lock. It has not blocked yet. -/
def tor_cond_wait_register (s : cond_state_t) (tid : Nat) : cond_state_t :=
  { s with
    cond := { s.cond with n_waiting := c_int (s.cond.n_waiting + 1) },
    waiters := s.waiters ++ [tid],
    phase := fun t => if t = tid then .registered else s.phase t,
    generation_at_start := fun t => if t = tid then s.cond.generation
                                    else s.generation_at_start t }

/-- Modelled from the spec: the registered thread `tid` blocks on the auto-reset wakeup
object. When the object is signalled the thread takes the signal, which resets the
object, and returns from it at once; otherwise it is blocked. -/
def tor_cond_wait_block (s : cond_state_t) (tid : Nat) : cond_state_t :=
  if s.phase tid = .registered then
    if s.cond.event then
      { s with
        cond := { s.cond with event := false },
        phase := fun t => if t = tid then .woken else s.phase t }
    else { s with phase := fun t => if t = tid then .blocked else s.phase t }
  else s

/-- Modelled from the spec: the re-check a waiter makes under the internal lock when it
returns from the wakeup object: it was legitimately released when `n_to_wake > 0` and
its captured generation is at most the current generation. -/
def tor_cond_wait_recheck (s : cond_state_t) (tid : Nat) : Bool :=
  decide (0 < s.cond.n_to_wake) && decide (s.generation_at_start tid ≤ s.cond.generation)

/-- Modelled from the spec: the woken thread `tid` re-checks. When the re-check passes
it leaves the wait (one less to wake, one less waiting) and is runnable; when it fails
it loops back to blocking. -/
def tor_cond_wait_wakeup (s : cond_state_t) (tid : Nat) : cond_state_t :=
  if s.phase tid = .woken then
    if tor_cond_wait_recheck s tid then
      { s with
        cond := { s.cond with n_to_wake := c_int (s.cond.n_to_wake - 1),
                              n_waiting := c_int (s.cond.n_waiting - 1) },
        waiters := s.waiters.filter (fun t => t ≠ tid),
        phase := fun t => if t = tid then .idle else s.phase t,
        runnable := s.runnable ++ [tid] }
    else { s with phase := fun t => if t = tid then .registered else s.phase t }
  else s

/-- Modelled from the spec: the wait of thread `tid`, registered or blocked, ends by its
deadline; the thread leaves the wait with the timed-out result, without having been
woken, and no longer counts as waiting. -/
def tor_cond_wait_deadline (s : cond_state_t) (tid : Nat) : cond_state_t :=
  if s.phase tid = .registered ∨ s.phase tid = .blocked then
    { s with
      cond := { s.cond with n_waiting := c_int (s.cond.n_waiting - 1) },
      waiters := s.waiters.filter (fun t => t ≠ tid),
      phase := fun t => if t = tid then .idle else s.phase t }
  else s

/-- Modelled from the spec: one unit is released on the wakeup object, an event that
natively wakes only one waiter per signal and has no queue depth. When threads are
blocked on it, one of them returns from it: the thread `pick`, which stands for the
choice of the operating system, when that thread is blocked, and the oldest blocked
waiter otherwise. When no thread is blocked the object becomes signalled, and stays so
if it was already. -/
def tor_cond_event_set (s : cond_state_t) (pick : Nat) : cond_state_t :=
  if pick ∈ s.waiters ∧ s.phase pick = .blocked then
    { s with phase := fun t => if t = pick then .woken else s.phase t }
  else
    match s.waiters.find? (fun t => decide (s.phase t = .blocked)) with
    | some tid => { s with phase := fun t => if t = tid then .woken else s.phase t }
    | none => { s with cond := { s.cond with event := true } }

/-- Modelled from the spec: `tor_cond_signal_one`, whose body is not part of the header;
it increments `n_to_wake` by one, capped at `n_waiting`, bumps `generation`, and
releases one unit of the wakeup object. -/
def tor_cond_signal_one (s : cond_state_t) (pick : Nat) : cond_state_t :=
  tor_cond_event_set
    { s with
      cond := { s.cond with
                n_to_wake := min (c_int (s.cond.n_to_wake + 1)) s.cond.n_waiting,
                generation := c_int (s.cond.generation + 1) } }
    pick

/-- Release one unit of the wakeup object for every entry of `picks`, oldest first. -/
def tor_cond_event_sets (s : cond_state_t) (picks : List Nat) : cond_state_t :=
  picks.foldl tor_cond_event_set s

/-- The choices of the operating system for `n` units released in a row: the entries of
`picks`, and 0 where `picks` is too short. -/
def tor_cond_picks (picks : List Nat) (n : Nat) : List Nat :=
  (List.range n).map (fun i => picks.getD i 0)

/-- Modelled from the spec: `tor_cond_signal_all`, whose body is not part of the header;
it sets `n_to_wake` to `n_waiting`, bumps `generation`, and releases `n_waiting` units
of the wakeup object. -/
def tor_cond_signal_all (s : cond_state_t) (picks : List Nat) : cond_state_t :=
  tor_cond_event_sets
    { s with
      cond := { s.cond with
                n_to_wake := s.cond.n_waiting,
                generation := c_int (s.cond.generation + 1) } }
    (tor_cond_picks picks s.cond.n_waiting.toNat)

/-- One step on the emulated condition variable: a thread registers in
`tor_cond_wait`, a registered thread blocks on the wakeup object, a woken thread
re-checks, a wait ends by its deadline, or a thread calls `tor_cond_signal_one` or
`tor_cond_signal_all`; a signal carries the choices of the operating system among the
threads blocked on the wakeup object. -/
inductive cond_step where
  | wait_register (tid : Nat)
  | wait_block (tid : Nat)
  | wait_wakeup (tid : Nat)
  | wait_deadline (tid : Nat)
  | signal_one (pick : Nat)
  | signal_all (picks : List Nat)
deriving DecidableEq, Repr

/-- Perform one step. -/
def cond_step.apply (s : cond_state_t) : cond_step → cond_state_t
  | .wait_register tid => tor_cond_wait_register s tid
  | .wait_block tid => tor_cond_wait_block s tid
  | .wait_wakeup tid => tor_cond_wait_wakeup s tid
  | .wait_deadline tid => tor_cond_wait_deadline s tid
  | .signal_one pick => tor_cond_signal_one s pick
  | .signal_all picks => tor_cond_signal_all s picks

/-- Perform a sequence of steps, oldest first. -/
def cond_steps (s : cond_state_t) (steps : List cond_step) : cond_state_t :=
  steps.foldl cond_step.apply s

/-- The step is a call of `tor_cond_signal_one` or `tor_cond_signal_all`. -/
def cond_step.is_signal : cond_step → Bool
  | .signal_one _ => true
  | .signal_all _ => true
  | _ => false

/-- The step is a registered thread blocking or a woken thread re-checking: a step of
a thread that is already inside its wait and stays in it unless it is released. -/
def cond_step.is_wait_progress : cond_step → Bool
  | .wait_block _ => true
  | .wait_wakeup _ => true
  | _ => false

/-- Every waiter in turn blocks and, if it has returned from the wakeup object,
re-checks. -/
def cond_run_each (order : List Nat) : List cond_step :=
  order.flatMap (fun t => [cond_step.wait_block t, cond_step.wait_wakeup t])

/-- A condition variable with `k` threads currently waiting and nothing yet to wake:
`n_waiting` is `k`, an `int`; the `k` waiters are distinct, each registered or blocked;
no other thread is inside a wait; the wakeup object is signalled only while no waiter is
blocked on it; every waiter captured a generation that is at most the current one, and
the current generation is an `int` below `INT_MAX`. -/
def cond_quiet (s : cond_state_t) (k : Nat) : Prop :=
  s.waiters.length = k ∧ s.cond.n_waiting = (k : Int) ∧ (k : Int) ≤ INT_MAX
    ∧ s.cond.n_to_wake = 0
    ∧ s.waiters.Nodup
    ∧ (∀ t ∈ s.waiters, s.phase t = .registered ∨ s.phase t = .blocked)
    ∧ (∀ t, t ∉ s.waiters → s.phase t = .idle)
    ∧ (s.cond.event = true → ∀ t ∈ s.waiters, s.phase t ≠ .blocked)
    ∧ (∀ t ∈ s.waiters, s.generation_at_start t ≤ s.cond.generation)
    ∧ -2147483648 ≤ s.cond.generation ∧ s.cond.generation < INT_MAX

/-- The step belongs to a schedule without signals after the waiters `orig` were woken:
a thread that is not one of `orig` registers, or any thread blocks or re-checks. -/
def cond_step.is_later_wait (orig : List Nat) : cond_step → Bool
  | .wait_register tid => decide (tid ∉ orig)
  | .wait_block _ => true
  | .wait_wakeup _ => true
  | _ => false

/-- The state of a run in which the distinct threads `orig` have all returned from the
wakeup object with `n_to_wake` equal to their number, and the threads `rel` among them
have been released so far: the woken threads are those of `orig` not yet released,
`n_to_wake` is their number, and the wakeup object is not signalled. -/
def cond_woken_inv (orig base : List Nat) (s : cond_state_t) (rel : List Nat) : Prop :=
  s.runnable = base ++ rel
    ∧ rel.Nodup ∧ (∀ t ∈ rel, t ∈ orig)
    ∧ (∀ t, s.phase t = .woken ↔ (t ∈ orig ∧ t ∉ rel))
    ∧ s.cond.n_to_wake = (orig.length : Int) - (rel.length : Int)
    ∧ s.cond.event = false
    ∧ (∀ t ∈ orig, t ∉ rel → s.generation_at_start t ≤ s.cond.generation)


/-- A sample state: threads 7 and 9 entered `tor_cond_wait` on a fresh condition
variable and both are blocked on the wakeup object. -/
def cond_two_blocked : cond_state_t :=
  cond_steps tor_cond_init
    [cond_step.wait_register 7, cond_step.wait_block 7,
     cond_step.wait_register 9, cond_step.wait_block 9]
/-! ## Alert sockets (`alert_sockets_t`, `ASOCKS_*`) -/

/-- The flag `ASOCKS_NOEVENTFD2`. -/
def ASOCKS_NOEVENTFD2 : Nat := 1 <<< 0
/-- The flag `ASOCKS_NOEVENTFD`. -/
def ASOCKS_NOEVENTFD : Nat := 1 <<< 1
/-- The flag `ASOCKS_NOPIPE2`. -/
def ASOCKS_NOPIPE2 : Nat := 1 <<< 2
/-- The flag `ASOCKS_NOPIPE`. -/
def ASOCKS_NOPIPE : Nat := 1 <<< 3
/-- The flag `ASOCKS_NOSOCKETPAIR`. -/
def ASOCKS_NOSOCKETPAIR : Nat := 1 <<< 4

/-- The notification backends an alert-socket pair can be built on. -/
inductive alert_backend where
  | eventfd2
  | eventfd
  | pipe2
  | pipe
  | socketpair
deriving DecidableEq, Repr

/-- The `ASOCKS_NO*` flag that disables a backend. -/
def alert_backend.disable_flag : alert_backend → Nat
  | .eventfd2 => ASOCKS_NOEVENTFD2
  | .eventfd => ASOCKS_NOEVENTFD
  | .pipe2 => ASOCKS_NOPIPE2
  | .pipe => ASOCKS_NOPIPE
  | .socketpair => ASOCKS_NOSOCKETPAIR

/-- Position of a backend in the priority order (0 is tried first). -/
def alert_backend.priority : alert_backend → Nat
  | .eventfd2 => 0
  | .eventfd => 1
  | .pipe2 => 2
  | .pipe => 3
  | .socketpair => 4

/-- The backends in the order in which they are probed. -/
def alert_backends : List alert_backend :=
  [.eventfd2, .eventfd, .pipe2, .pipe, .socketpair]

/-- Whether `flags` (a `uint32_t`) disables the backend. -/
def alert_backend.disabled (flags : Nat) (b : alert_backend) : Bool :=
  flags &&& b.disable_flag != 0

/-- Modelled from the spec: `alert_sockets_create`, declared in the header, whose body is
not part of it. Construction probes the backends in priority order, skips any that
`flags` disables, and uses the first whose construction succeeds; `constructs b` tells
whether the operating system lets backend `b` be constructed. `none` is the failure
return (-1), `some b` is success (0) with the pair bound to backend `b`. -/
def alert_sockets_create (constructs : alert_backend → Bool) (flags : Nat) :
    Option alert_backend :=
  alert_backends.find? (fun b => !b.disabled flags && constructs b)

/-- The `int` that `alert_sockets_create` returns. -/
def alert_sockets_create_result (constructs : alert_backend → Bool) (flags : Nat) : Int :=
  if (alert_sockets_create constructs flags).isSome then 0 else -1

/-- The type `alert_sockets_t`, reduced to the state of the channel between `write_fd`
and `read_fd`: the number of sentinel bytes written and not yet read, and whether
`read_fd` is in non-blocking mode. -/
structure alert_sockets_t where
  pending : Nat
  nonblocking : Bool
deriving DecidableEq, Repr

/-- Modelled from the spec: the pair as `alert_sockets_create` hands it out, whose body
is not part of the header; the notification descriptor pair and the pipe pair are
constructed non-blocking and drain must not block on any backend, so `read_fd` of a new
pair is non-blocking, and nothing is pending on it. -/
def alert_sockets_new : alert_sockets_t :=
  { pending := 0, nonblocking := true }

/-- How a `read` on `read_fd` ends: it returns `n` bytes, it returns at once
because nothing is available on a non-blocking descriptor, or it does not return
because nothing is available on a blocking descriptor. -/
inductive read_result where
  | data (n : Nat)
  | would_block
  | blocks
deriving DecidableEq, Repr

/-- A `read` of at most `count` bytes from `read_fd`: a partial read when more is
pending than `count`. The second component is the pair afterwards. -/
def alert_sockets_read (socks : alert_sockets_t) (count : Nat) :
    read_result × alert_sockets_t :=
  if socks.pending = 0 then
    (if socks.nonblocking then .would_block else .blocks, socks)
  else
    (.data (min count socks.pending),
      { socks with pending := socks.pending - min count socks.pending })

/-- How a call of the drain function ends: it returns a value and leaves the pair in
some state, it blocks in a `read`, or the bound on the number of reads was too small. -/
inductive drain_outcome where
  | returned (rv : Int) (socks : alert_sockets_t)
  | blocks
  | out_of_fuel
deriving DecidableEq, Repr

/-- Modelled from the spec: `alert_fn`, bound at construction, whose body is not part of
the header; alert writes a single sentinel unit to `write_fd`. The first component is
the returned `int`. -/
def alert_sockets_alert (socks : alert_sockets_t) : Int × alert_sockets_t :=
  (0, { socks with pending := socks.pending + 1 })

/-- The loop of the drain function: read into a buffer of `bufsize` bytes and discard,
as long as a read returns more than zero bytes; at most `fuel` reads. -/
def alert_sockets_drain_loop (bufsize : Nat) : Nat → alert_sockets_t → drain_outcome
  | 0, _ => .out_of_fuel
  | fuel + 1, socks =>
    match alert_sockets_read socks bufsize with
    | (.data n, socks1) =>
      if n = 0 then .returned 0 socks1 else alert_sockets_drain_loop bufsize fuel socks1
    | (.would_block, socks1) => .returned 0 socks1
    | (.blocks, _) => .blocks

/-- Modelled from the spec: `drain_fn`, bound at construction, whose body is not part of
the header; drain reads and discards all currently available sentinel data from
`read_fd`, with a buffer of `bufsize` bytes. The loop is run with a bound of one read
for every pending byte and one more. -/
def alert_sockets_drain (bufsize : Nat) (socks : alert_sockets_t) : drain_outcome :=
  alert_sockets_drain_loop bufsize (socks.pending + 1) socks

/-- The pair that a drain leaves when it returns (the pair as it was when it does
not). -/
def drain_outcome.socks_after (socks : alert_sockets_t) : drain_outcome → alert_sockets_t
  | .returned _ socks1 => socks1
  | _ => socks

/-- Whether the event loop sees `read_fd` as ready for reading. -/
def alert_sockets_read_ready (socks : alert_sockets_t) : Bool :=
  decide (0 < socks.pending)

/-- The pair after `n` alert calls with no drain in between. -/
def alert_sockets_alerts (socks : alert_sockets_t) : Nat → alert_sockets_t
  | 0 => socks
  | n + 1 => (alert_sockets_alert (alert_sockets_alerts socks n)).2

/-! ## Thread-local slot (`tor_threadlocal_t`) -/

/-- The type `tor_threadlocal_t` after `tor_threadlocal_init`: for each thread id the
`void *` the slot holds for that thread, as an address; 0 is the null pointer. -/
structure tor_threadlocal_t where
  value_of : Nat → Nat

/-- Modelled from the spec: `tor_threadlocal_init`, declared in the header, whose body is
not part of it; in a freshly initialised slot every thread reads null. -/
def tor_threadlocal_init : tor_threadlocal_t := ⟨fun _ => 0⟩

/-- Modelled from the spec: `tor_threadlocal_get`, declared in the header, whose body is
not part of it; the current value of the slot for the calling thread `tid`. -/
def tor_threadlocal_get (threadlocal : tor_threadlocal_t) (tid : Nat) : Nat :=
  threadlocal.value_of tid

/-- Modelled from the spec: `tor_threadlocal_set`, declared in the header, whose body is
not part of it; changes the value of the slot for the calling thread `tid` to `value`. -/
def tor_threadlocal_set (threadlocal : tor_threadlocal_t) (tid : Nat) (value : Nat) :
    tor_threadlocal_t :=
  ⟨fun t => if t = tid then value else threadlocal.value_of t⟩

/-- Perform a history of `tor_threadlocal_set` calls, each a pair of the calling thread
and the value passed, oldest first. -/
def tor_threadlocal_sets (threadlocal : tor_threadlocal_t) (history : List (Nat × Nat)) :
    tor_threadlocal_t :=
  history.foldl (fun tl call => tor_threadlocal_set tl call.1 call.2) threadlocal

/-- The value most recently passed to `tor_threadlocal_set` by thread `tid` in a history,
if the thread made such a call at all. -/
def last_set_by (history : List (Nat × Nat)) (tid : Nat) : Option Nat :=
  ((history.filter (fun call => call.1 = tid)).getLast?).map (fun call => call.2)

/-! ## Option assignment (`config.c`) -/

/-- The constant `CONFIG_TYPE_STRING`. -/
def CONFIG_TYPE_STRING : Nat := 0
/-- The constant `CONFIG_TYPE_CHAR`. -/
def CONFIG_TYPE_CHAR : Nat := 1
/-- The constant `CONFIG_TYPE_INT`. -/
def CONFIG_TYPE_INT : Nat := 2
/-- The constant `CONFIG_TYPE_LONG`. -/
def CONFIG_TYPE_LONG : Nat := 3
/-- The constant `CONFIG_TYPE_DOUBLE`. -/
def CONFIG_TYPE_DOUBLE : Nat := 4
/-- The constant `CONFIG_TYPE_BOOL`. -/
def CONFIG_TYPE_BOOL : Nat := 5
/-- The constant `CONFIG_TYPE_LINELIST`. -/
def CONFIG_TYPE_LINELIST : Nat := 6

/-- The type `struct config_line_t`: one key/value pair; the `next` pointer is the tail
of the list the node stands in. -/
structure config_line_t where
  key : String
  value : String
deriving DecidableEq, Repr

/-- A C `double`, kept as the text that `atof` converted: floating point is not
evaluated here. -/
structure c_double where
  text : String
deriving DecidableEq, Repr

/-- The `char *` fields of `or_options_t` that `config_assign` sets. -/
inductive string_option where
  | Address | DebugLogFile | DataDirectory | DirBindAddress | ExitNodes | EntryNodes
  | ExitPolicy | ExcludeNodes | Group | LogLevel | LogFile | Nickname | ORBindAddress
  | PidFile | RouterFile | RecommendedVersions | RendNodes | RendExcludeNodes
  | SocksBindAddress | User
deriving DecidableEq, Repr

/-- The `int` fields of `or_options_t` that `config_assign` sets. -/
inductive int_option where
  | BandwidthRate | BandwidthBurst | DirPort | DirFetchPostPeriod | IgnoreVersion
  | KeepalivePeriod | LinkPadding | MaxConn | MaxOnionsPending | NewCircuitPeriod
  | NumCpus | ORPort | RunAsDaemon | SocksPort | TrafficShaping | RunTesting
deriving DecidableEq, Repr

/-- The type `or_options_t` (declared in `or.h`), with its fields grouped by C type:
the `char *` fields (`none` is `NULL`), the `int` fields, the `double`
`PathlenCoinWeight`, the list `RendConfigLines`, and the `int` `loglevel`. -/
structure or_options_t where
  str : string_option → Option String
  int : int_option → Int
  PathlenCoinWeight : c_double
  RendConfigLines : List config_line_t
  loglevel : Int

/-- The address of a field of `or_options_t`, as passed for `void *arg`. -/
inductive option_ref where
  | str (f : string_option)
  | int (f : int_option)
  | PathlenCoinWeight
  | RendConfigLines
deriving DecidableEq, Repr

/-- The C library function `tolower` in the C locale, on character codes. -/
def tolower (c : Char) : Nat :=
  if 65 ≤ c.toNat ∧ c.toNat ≤ 90 then c.toNat + 32 else c.toNat

/-- The C library function `strncasecmp(s1, s2, n)`: compare at most `n` characters
ignoring case, stopping at the end of either string; 0 when they agree, otherwise the
difference of the first two lower-cased codes that differ (the end of a string counts
as a code below every character). -/
def strncasecmp : List Char → List Char → Nat → Int
  | _, _, 0 => 0
  | [], [], _ + 1 => 0
  | [], _ :: _, _ + 1 => -1
  | _ :: _, [], _ + 1 => 1
  | a :: as, b :: bs, n + 1 =>
    if tolower a = tolower b then strncasecmp as bs n
    else (tolower a : Int) - (tolower b : Int)

/-- The C library function `isspace` in the C locale. -/
def isspace (c : Char) : Bool :=
  c.toNat = 32 || (9 ≤ c.toNat && c.toNat ≤ 13)

/-- The C library function `isdigit`. -/
def isdigit (c : Char) : Bool :=
  48 ≤ c.toNat && c.toNat ≤ 57

/-- The digits part of `atoi`: accumulate decimal digits until the first other
character. -/
def atoi_digits (acc : Int) : List Char → Int
  | [] => acc
  | c :: cs => if isdigit c then atoi_digits (acc * 10 + ((c.toNat : Int) - 48)) cs else acc

/-- The value that `strtol(s, NULL, 10)` reads: skip white space, read an optional sign
and the decimal digits that follow; 0 when there is no digit; saturated to a `long`. -/
def strtol (s : String) : Int :=
  clamp_long
    (match s.toList.dropWhile isspace with
     | '-' :: cs => - atoi_digits 0 cs
     | '+' :: cs => atoi_digits 0 cs
     | cs => atoi_digits 0 cs)

/-- The C library function `atoi`, which is `(int) strtol(s, NULL, 10)`: the number
read is converted to an `int` of 32 bits, so `2147483648` gives `-2147483648` and
`4294967297` gives `1`. -/
def atoi (s : String) : Int := c_int (strtol s)

/-- The C library function `atof`, not evaluated: the result is the double written by
the text. -/
def atof (s : String) : c_double := ⟨s⟩

/-- The function `config_line_prepend`: a new node with copies of `key` and `val` in
front of `front`. -/
def config_line_prepend (front : List config_line_t) (key val : String) :
    List config_line_t :=
  { key := key, value := val } :: front

/-- Store through `*(int *)arg`. -/
def store_int (options : or_options_t) (arg : option_ref) (v : Int) : or_options_t :=
  match arg with
  | .int f => { options with int := fun g => if g = f then v else options.int g }
  | _ => options

/-- Store through `*(char **)arg`. -/
def store_string (options : or_options_t) (arg : option_ref) (v : Option String) :
    or_options_t :=
  match arg with
  | .str f => { options with str := fun g => if g = f then v else options.str g }
  | _ => options

/-- Store through `*(double *)arg`. -/
def store_double (options : or_options_t) (arg : option_ref) (v : c_double) : or_options_t :=
  match arg with
  | .PathlenCoinWeight => { options with PathlenCoinWeight := v }
  | _ => options

/-- Load through `*(struct config_line_t **)arg`. -/
def load_lines (options : or_options_t) (arg : option_ref) : List config_line_t :=
  match arg with
  | .RendConfigLines => options.RendConfigLines
  | _ => []

/-- Store through `*(struct config_line_t **)arg`. -/
def store_lines (options : or_options_t) (arg : option_ref) (v : List config_line_t) :
    or_options_t :=
  match arg with
  | .RendConfigLines => { options with RendConfigLines := v }
  | _ => options

/-- The function `config_compare`: when `c->key` is not a case-insensitive prefix of
`key` return 0; otherwise convert `c->value` according to `type` and assign it through
`arg`, returning 1, except that a boolean whose value is neither 0 nor 1 returns 0
without assigning. The second component is `options` afterwards. -/
def config_compare (options : or_options_t) (c : config_line_t) (key : String) (type : Nat)
    (arg : option_ref) : Int × or_options_t :=
  if strncasecmp c.key.toList key.toList c.key.length ≠ 0 then (0, options)
  else if type = CONFIG_TYPE_INT then (1, store_int options arg (atoi c.value))
  else if type = CONFIG_TYPE_BOOL then
    let i := atoi c.value
    if i ≠ 0 ∧ i ≠ 1 then (0, options)
    else (1, store_int options arg i)
  else if type = CONFIG_TYPE_STRING then (1, store_string options arg (some c.value))
  else if type = CONFIG_TYPE_DOUBLE then (1, store_double options arg (atof c.value))
  else if type = CONFIG_TYPE_LINELIST then
    (1, store_lines options arg (config_line_prepend (load_lines options arg) c.key c.value))
  else (1, options)

/-- One `config_compare(list, key, type, &options->field)` call of `config_assign`. -/
structure config_entry where
  key : String
  type : Nat
  arg : option_ref
deriving DecidableEq, Repr

/-- The `config_compare` calls of `config_assign`, in the order of its `||` chain. -/
def config_assign_table : List config_entry :=
  [ ⟨"Address", CONFIG_TYPE_STRING, .str .Address⟩,
    ⟨"BandwidthRate", CONFIG_TYPE_INT, .int .BandwidthRate⟩,
    ⟨"BandwidthBurst", CONFIG_TYPE_INT, .int .BandwidthBurst⟩,
    ⟨"DebugLogFile", CONFIG_TYPE_STRING, .str .DebugLogFile⟩,
    ⟨"DataDirectory", CONFIG_TYPE_STRING, .str .DataDirectory⟩,
    ⟨"DirPort", CONFIG_TYPE_INT, .int .DirPort⟩,
    ⟨"DirBindAddress", CONFIG_TYPE_STRING, .str .DirBindAddress⟩,
    ⟨"DirFetchPostPeriod", CONFIG_TYPE_INT, .int .DirFetchPostPeriod⟩,
    ⟨"ExitNodes", CONFIG_TYPE_STRING, .str .ExitNodes⟩,
    ⟨"EntryNodes", CONFIG_TYPE_STRING, .str .EntryNodes⟩,
    ⟨"ExitPolicy", CONFIG_TYPE_STRING, .str .ExitPolicy⟩,
    ⟨"ExcludeNodes", CONFIG_TYPE_STRING, .str .ExcludeNodes⟩,
    ⟨"Group", CONFIG_TYPE_STRING, .str .Group⟩,
    ⟨"IgnoreVersion", CONFIG_TYPE_BOOL, .int .IgnoreVersion⟩,
    ⟨"KeepalivePeriod", CONFIG_TYPE_INT, .int .KeepalivePeriod⟩,
    ⟨"LogLevel", CONFIG_TYPE_STRING, .str .LogLevel⟩,
    ⟨"LogFile", CONFIG_TYPE_STRING, .str .LogFile⟩,
    ⟨"LinkPadding", CONFIG_TYPE_BOOL, .int .LinkPadding⟩,
    ⟨"MaxConn", CONFIG_TYPE_INT, .int .MaxConn⟩,
    ⟨"MaxOnionsPending", CONFIG_TYPE_INT, .int .MaxOnionsPending⟩,
    ⟨"Nickname", CONFIG_TYPE_STRING, .str .Nickname⟩,
    ⟨"NewCircuitPeriod", CONFIG_TYPE_INT, .int .NewCircuitPeriod⟩,
    ⟨"NumCpus", CONFIG_TYPE_INT, .int .NumCpus⟩,
    ⟨"ORPort", CONFIG_TYPE_INT, .int .ORPort⟩,
    ⟨"ORBindAddress", CONFIG_TYPE_STRING, .str .ORBindAddress⟩,
    ⟨"PidFile", CONFIG_TYPE_STRING, .str .PidFile⟩,
    ⟨"PathlenCoinWeight", CONFIG_TYPE_DOUBLE, .PathlenCoinWeight⟩,
    ⟨"RouterFile", CONFIG_TYPE_STRING, .str .RouterFile⟩,
    ⟨"RunAsDaemon", CONFIG_TYPE_BOOL, .int .RunAsDaemon⟩,
    ⟨"RecommendedVersions", CONFIG_TYPE_STRING, .str .RecommendedVersions⟩,
    ⟨"RendNodes", CONFIG_TYPE_STRING, .str .RendNodes⟩,
    ⟨"RendExcludeNodes", CONFIG_TYPE_STRING, .str .RendExcludeNodes⟩,
    ⟨"SocksPort", CONFIG_TYPE_INT, .int .SocksPort⟩,
    ⟨"SocksBindAddress", CONFIG_TYPE_STRING, .str .SocksBindAddress⟩,
    ⟨"TrafficShaping", CONFIG_TYPE_BOOL, .int .TrafficShaping⟩,
    ⟨"User", CONFIG_TYPE_STRING, .str .User⟩,
    ⟨"RunTesting", CONFIG_TYPE_BOOL, .int .RunTesting⟩,
    ⟨"HiddenServiceDir", CONFIG_TYPE_LINELIST, .RendConfigLines⟩,
    ⟨"HiddenServicePort", CONFIG_TYPE_LINELIST, .RendConfigLines⟩,
    ⟨"HiddenServiceNodes", CONFIG_TYPE_LINELIST, .RendConfigLines⟩,
    ⟨"HiddenServiceExcludeNodes", CONFIG_TYPE_LINELIST, .RendConfigLines⟩ ]

/-- The `||` chain of `config_compare` calls over the entries `table`, evaluated left
to right and stopping at the first call that returns non-zero: whether some call
returned non-zero, and `options` afterwards. -/
def config_compare_chain (options : or_options_t) (c : config_line_t) :
    List config_entry → Bool × or_options_t
  | [] => (false, options)
  | e :: es =>
    let r := config_compare options c e.key e.type e.arg
    if r.1 ≠ 0 then (true, r.2) else config_compare_chain r.2 c es

/-- The function `config_assign`: iterate through `list`; for each item run the chain
of `config_compare` calls; if none of them returns non-zero return -1 immediately, else
go on; return 0 at the end of the list. The second component is `options` afterwards. -/
def config_assign (options : or_options_t) : List config_line_t → Int × or_options_t
  | [] => (0, options)
  | c :: rest =>
    let r := config_compare_chain options c config_assign_table
    if r.1 then config_assign r.2 rest else (-1, r.2)

/-- The state after `memset(options, 0, sizeof(or_options_t))`, with which
`init_options` starts. -/
def options_zero : or_options_t :=
  { str := fun _ => none, int := fun _ => 0, PathlenCoinWeight := ⟨"0"⟩,
    RendConfigLines := [], loglevel := 0 }

/-- Whether `key` is a case-insensitive prefix of `name`: `name` begins with `key` when
case is ignored. -/
def begins_ci : List Char → List Char → Bool
  | [], _ => true
  | _ :: _, [] => false
  | a :: as, b :: bs => decide (tolower a = tolower b) && begins_ci as bs

/-- The longest common case-insensitive prefix of two strings (characters of the
first). -/
def common_start : List Char → List Char → List Char
  | a :: as, b :: bs => if tolower a = tolower b then a :: common_start as bs else []
  | _, _ => []

/-- The option name of the entry begins, case-insensitively, with the line's key. -/
def entry_matches (c : config_line_t) (e : config_entry) : Bool :=
  begins_ci c.key.toList e.key.toList

/-- The line's keyword is recognized: its key is a case-insensitive prefix of some
option name in the table. -/
def keyword_recognized (c : config_line_t) : Bool :=
  config_assign_table.any (entry_matches c)

/-- The first entry, in table order, whose option name begins with the line's key. -/
def first_match (c : config_line_t) : Option config_entry :=
  config_assign_table.find? (entry_matches c)

/-- The value of the line is fit for an entry of this type: anything for the types
other than boolean, 0 or 1 for a boolean. -/
def value_fits (c : config_line_t) (type : Nat) : Bool :=
  type != CONFIG_TYPE_BOOL || atoi c.value == 0 || atoi c.value == 1

/-- The entry takes the line: its name begins with the key and the value fits its
type. -/
def entry_accepts (c : config_line_t) (e : config_entry) : Bool :=
  entry_matches c e && value_fits c e.type

/-- Some entry of the table takes the line. -/
def line_accepted (c : config_line_t) : Bool :=
  config_assign_table.any (entry_accepts c)

/-- The type tag of an entry agrees with the C type of the field it points to. -/
def entry_well_typed (e : config_entry) : Bool :=
  match e.arg with
  | .str _ => e.type == CONFIG_TYPE_STRING
  | .int _ => e.type == CONFIG_TYPE_INT || e.type == CONFIG_TYPE_BOOL
  | .PathlenCoinWeight => e.type == CONFIG_TYPE_DOUBLE
  | .RendConfigLines => e.type == CONFIG_TYPE_LINELIST

/-- A check on a table `pre ++ rest`: for every boolean entry of `rest` and every later
entry that is not boolean, what their names have in common as a prefix is already a
prefix of the name of an entry before the boolean one. -/
def bool_entries_shadowed : List config_entry → List config_entry → Bool
  | _, [] => true
  | pre, x :: xs =>
    (x.type != CONFIG_TYPE_BOOL ||
      xs.all (fun e => e.type == CONFIG_TYPE_BOOL ||
        pre.any (fun a => begins_ci (common_start x.key.toList e.key.toList) a.key.toList)))
    && bool_entries_shadowed (pre ++ [x]) xs

/-! ## Reading the configuration (`config.c`) -/

/-- The function `config_get_commandlines`, its loop seen from `argv + i`: while two
arguments are left, skip both when the first is `-f`, otherwise strip the leading
dashes of the first, take it as key and the second as value, and put the new line in
front of the list. -/
def config_get_commandlines_loop (front : List config_line_t) :
    List String → List config_line_t
  | a :: b :: rest =>
    if a = "-f" then config_get_commandlines_loop front rest
    else
      config_get_commandlines_loop
        ({ key := String.mk (a.toList.dropWhile (fun ch => ch = '-')), value := b } :: front)
        rest
  | _ => front

/-- The function `config_get_commandlines`: `argc` is the length of `argv`, the loop
starts at `argv[1]` with an empty list. -/
def config_get_commandlines (argv : List String) : List config_line_t :=
  config_get_commandlines_loop [] (argv.drop 1)

/-- The scan of `getconfig` for the config file name, seen from `argv + i`: while two
arguments are left and the first is not `-f`, step by one; when it stops with two
arguments left, the second one is the file name. -/
def getconfig_scan : List String → Option String
  | a :: b :: rest => if a = "-f" then some b else getconfig_scan (b :: rest)
  | _ => none

/-- What is read from an open configuration file: the key/value pairs that the calls
of `parse_line_from_file` (not part of `config.c`) yield with a positive result, in
file order, and the result, zero or negative, of the call that ends the loop. -/
structure config_file where
  lines : List config_line_t
  last_result : Int
deriving DecidableEq, Repr

/-- The loop of `config_get_lines`: each parsed line is put in front of the list. -/
def config_get_lines_loop (front : List config_line_t) :
    List config_line_t → List config_line_t
  | [] => front
  | l :: rest => config_get_lines_loop (config_line_prepend front l.key l.value) rest

/-- The function `config_get_lines`: the list built by the loop, or `NULL` (the empty
list) when parsing ended with a negative result. -/
def config_get_lines (f : config_file) : List config_line_t :=
  if f.last_result < 0 then [] else config_get_lines_loop [] f.lines

/-- The constants that `config.c` takes from headers that are not part of it. -/
structure or_constants where
  MAXCONNECTIONS : Nat
  MIN_ONION_KEY_LIFETIME : Nat
  MAX_NICKNAME_LEN : Nat
  LEGAL_NICKNAME_CHARACTERS : String
  CONFIG_LEGAL_FILENAME_CHARACTERS : String
  CONFDIR : String
  LOG_ERR : Int
  LOG_WARN : Int
  LOG_NOTICE : Int
  LOG_INFO : Int
  LOG_DEBUG : Int

/-- What `getconfig` obtains from the operating system and from functions that are not
part of `config.c`: the file that `fopen` finds under a name, `gethostname` (`none` is
failure), `tor_inet_aton` (`none` is the return value 0), `gethostbyname` (`none` is
`NULL`; the address has length 4), `htonl`, `is_internal_IP`, `inet_ntoa`, whether
`router_set_routerlist_from_string` accepts the default directory servers, the return
value of `rend_config_services`, and the test
`PathlenCoinWeight < 0.0 || PathlenCoinWeight >= 1.0` on a `double`. -/
structure config_env where
  fopen : String → Option config_file
  gethostname : Option String
  tor_inet_aton : String → Option Nat
  gethostbyname : String → Option Nat
  htonl : Nat → Nat
  is_internal_IP : Nat → Bool
  inet_ntoa : Nat → String
  default_dirservers_ok : Bool
  rend_config_services : or_options_t → Int
  pathlen_out_of_range : c_double → Bool

/-- The C library function `strspn`: the length of the initial part of `s` that
consists of characters of `accept`. -/
def strspn (s accept : String) : Nat :=
  (s.toList.takeWhile (fun ch => accept.toList.contains ch)).length

/-- The function `config_open`: `NULL` when the file name has a character outside
`CONFIG_LEGAL_FILENAME_CHARACTERS`, otherwise what `fopen` returns. -/
def config_open (k : or_constants) (env : config_env) (filename : String) :
    Option config_file :=
  if strspn filename k.CONFIG_LEGAL_FILENAME_CHARACTERS ≠ filename.length then none
  else env.fopen filename

/-- The function `config_assign_default_dirservers`. -/
def config_assign_default_dirservers (env : config_env) : Int :=
  if env.default_dirservers_ok then 0 else -1

/-- The function `config_assign_default`: a client only, with the default directory
servers. -/
def config_assign_default (env : config_env) (options : or_options_t) : Int × or_options_t :=
  let options1 := store_int options (.int .SocksPort) 9050
  if config_assign_default_dirservers env < 0 then (-1, options1) else (0, options1)

/-- The end of `resolve_my_address`: refuse a private address that was not given
explicitly, otherwise keep only the IP address in `Address`. -/
def resolve_my_address_finish (env : config_env) (explicit_ip : Bool) (ip : Nat)
    (options : or_options_t) : Int × or_options_t :=
  if !explicit_ip && env.is_internal_IP (env.htonl ip) then (-1, options)
  else (0, store_string options (.str .Address) (some (env.inet_ntoa ip)))

/-- The middle of `resolve_my_address`, once `Address` is set: resolve it when it is
not an IP address. -/
def resolve_my_address_ip (env : config_env) (explicit_ip : Bool) (options : or_options_t) :
    Int × or_options_t :=
  let address := (options.str .Address).getD ""
  match env.tor_inet_aton address with
  | some ip => resolve_my_address_finish env explicit_ip ip options
  | none =>
    match env.gethostbyname address with
    | none => (-1, options)
    | some ip => resolve_my_address_finish env false ip options

/-- The function `resolve_my_address`: guess the host name when `Address` is not set,
resolve it when it is not an IP address, refuse a private address that was not given
explicitly, and keep only the IP address. -/
def resolve_my_address (env : config_env) (options : or_options_t) : Int × or_options_t :=
  match options.str .Address with
  | none =>
    match env.gethostname with
    | none => (-1, options)
    | some localhostname =>
      resolve_my_address_ip env false
        (store_string options (.str .Address) (some localhostname))
  | some _ => resolve_my_address_ip env true options

/-- Two option records agree on everything that validation reads, `Address` apart. -/
def same_but_address (o2 o1 : or_options_t) : Prop :=
  o2.int = o1.int ∧ (∀ f, f ≠ string_option.Address → o2.str f = o1.str f)
    ∧ o2.loglevel = o1.loglevel ∧ o2.PathlenCoinWeight = o1.PathlenCoinWeight
    ∧ o2.RendConfigLines = o1.RendConfigLines

/-- The function `init_options`: zero everywhere, then the defaults. -/
def init_options (k : or_constants) : or_options_t :=
  { str := fun f =>
      match f with
      | .LogLevel => some "notice"
      | .ExitNodes => some ""
      | .EntryNodes => some ""
      | .ExcludeNodes => some ""
      | .RendNodes => some ""
      | .RendExcludeNodes => some ""
      | .ExitPolicy => some ""
      | .SocksBindAddress => some "127.0.0.1"
      | .ORBindAddress => some "0.0.0.0"
      | .DirBindAddress => some "0.0.0.0"
      | _ => none,
    int := fun f =>
      match f with
      | .MaxConn => 900
      | .DirFetchPostPeriod => 600
      | .KeepalivePeriod => 300
      | .MaxOnionsPending => 100
      | .NewCircuitPeriod => 30
      | .BandwidthRate => 800000
      | .BandwidthBurst => 10000000
      | .NumCpus => 1
      | _ => 0,
    PathlenCoinWeight := ⟨"0.3"⟩,
    RendConfigLines := [],
    loglevel := k.LOG_INFO }

/-- The static variables of `getconfig`. -/
structure getconfig_statics where
  first_load : Bool
  backup_argv : List String
deriving DecidableEq, Repr

/-- How a call of `getconfig` ends: it returns a value, it calls `exit`, or it runs
into undefined behaviour (`strcmp` on a null pointer). -/
inductive getconfig_outcome where
  | returned (rv : Int)
  | exited (status : Int)
  | undefined
deriving DecidableEq, Repr

/-- The part of `getconfig` under `learn config file name, get config lines, assign
them`: `false` stands for `return -1`. -/
def getconfig_read_file (k : or_constants) (env : config_env) (argv : List String)
    (options : or_options_t) : Bool × or_options_t :=
  let found := getconfig_scan (argv.drop 1)
  let fname := found.getD (k.CONFDIR ++ "/torrc")
  let using_default_torrc := found.isNone
  match config_open k env fname with
  | none =>
    if using_default_torrc then
      let r := config_assign_default env options
      if r.1 < 0 then (false, r.2) else (true, r.2)
    else (false, options)
  | some cf =>
    let cl := config_get_lines cf
    if cl = [] then (false, options)
    else
      let r := config_assign options cl
      if r.1 < 0 then (false, r.2) else (true, r.2)

/-- The part of `getconfig` that sets `loglevel` from `LogLevel`: the options
afterwards and whether `LogLevel` was refused. -/
def getconfig_loglevel (k : or_constants) (options : or_options_t) : or_options_t × Bool :=
  match options.str .LogLevel with
  | none => (options, false)
  | some l =>
    if l = "err" then ({ options with loglevel := k.LOG_ERR }, false)
    else if l = "warn" then ({ options with loglevel := k.LOG_WARN }, false)
    else if l = "notice" then ({ options with loglevel := k.LOG_NOTICE }, false)
    else if l = "info" then ({ options with loglevel := k.LOG_INFO }, false)
    else if l = "debug" then ({ options with loglevel := k.LOG_DEBUG }, false)
    else (options, true)

/-- The part of `getconfig` that checks `Nickname` when `ORPort` is set: whether
`result` is set to -1. -/
def getconfig_nickname_refused (k : or_constants) (options : or_options_t) : Bool :=
  if options.int .ORPort ≠ 0 then
    match options.str .Nickname with
    | none => true
    | some nick =>
      decide (strspn nick k.LEGAL_NICKNAME_CHARACTERS ≠ nick.length)
        || decide (k.MAX_NICKNAME_LEN < nick.length)
  else false

/-- The part of `getconfig` under `Validate options`, after the three checks of a
reload: `result` starts at 0, every failed check sets it to -1, and it is returned at
the end. -/
def getconfig_validate (k : or_constants) (env : config_env) (options : or_options_t) :
    Int × or_options_t :=
  let result : Int := 0
  let lv := getconfig_loglevel k options
  let options := lv.1
  let result := if lv.2 then -1 else result
  let result := if options.int .ORPort < 0 then -1 else result
  let result :=
    if options.int .ORPort ≠ 0 ∧ options.str .DataDirectory = none then -1 else result
  let result := if getconfig_nickname_refused k options then -1 else result
  let ra := if options.int .ORPort ≠ 0 then resolve_my_address env options else (0, options)
  let options := ra.2
  let result := if ra.1 < 0 then -1 else result
  let result := if options.int .SocksPort < 0 then -1 else result
  let result :=
    if options.int .SocksPort = 0 ∧ options.int .ORPort = 0 then -1 else result
  let result := if options.int .DirPort < 0 then -1 else result
  let result :=
    if options.int .DirPort ≠ 0 ∧ options.str .RecommendedVersions = none then -1 else result
  let result :=
    if 1 < options.int .SocksPort ∧ env.pathlen_out_of_range options.PathlenCoinWeight = true
    then -1 else result
  let result := if options.int .MaxConn < 1 then -1 else result
  let result := if (k.MAXCONNECTIONS : Int) ≤ options.int .MaxConn then -1 else result
  let result := if options.int .DirFetchPostPeriod < 1 then -1 else result
  let options :=
    if ((k.MIN_ONION_KEY_LIFETIME / 2 : Nat) : Int) < options.int .DirFetchPostPeriod then
      store_int options (.int .DirFetchPostPeriod) ((k.MIN_ONION_KEY_LIFETIME / 2 : Nat) : Int)
    else options
  let result := if options.int .KeepalivePeriod < 1 then -1 else result
  let result := if env.rend_config_services options < 0 then -1 else result
  (result, options)

/-- The function `getconfig`. The static variables are passed in and out; `argc` is
the length of `argv`. On a reload the saved command line is used and the previous
`PidFile`, `RunAsDaemon` and `ORPort` are recorded before the options are reset. -/
def getconfig (k : or_constants) (env : config_env) (statics : getconfig_statics)
    (argv : List String) (options : or_options_t) :
    getconfig_outcome × getconfig_statics × or_options_t :=
  let argv := if statics.first_load then argv else statics.backup_argv
  let statics1 : getconfig_statics := { first_load := false, backup_argv := argv }
  let previous_pidfile := if statics.first_load then none else options.str .PidFile
  let previous_runasdaemon := if statics.first_load then 0 else options.int .RunAsDaemon
  let previous_orport := if statics.first_load then -1 else options.int .ORPort
  let options := init_options k
  if 1 < argv.length ∧ (argv.getD 1 "" = "-h" ∨ argv.getD 1 "" = "--help") then
    (.exited 0, statics1, options)
  else if 1 < argv.length ∧ argv.getD 1 "" = "--version" then
    (.exited 0, statics1, options)
  else
    let rf := getconfig_read_file k env argv options
    if !rf.1 then (.returned (-1), statics1, rf.2)
    else
      let r := config_assign rf.2 (config_get_commandlines argv)
      if r.1 < 0 then (.returned (-1), statics1, r.2)
      else
        let options := r.2
        match previous_pidfile, options.str .PidFile with
        | some _, none => (.undefined, statics1, options)
        | pp, pidfile =>
          if pp.isSome ∧ pp ≠ pidfile then (.returned (-1), statics1, options)
          else if previous_runasdaemon ≠ 0 ∧ options.int .RunAsDaemon = 0 then
            (.returned (-1), statics1, options)
          else if previous_orport = 0 ∧ 0 < options.int .ORPort then
            (.returned (-1), statics1, options)
          else
            let v := getconfig_validate k env options
            (.returned v.1, statics1, v.2)

/-- Sample values for the constants (the real ones are in headers that are not part of
`config.c`). -/
def sample_constants : or_constants :=
  { MAXCONNECTIONS := 1024, MIN_ONION_KEY_LIFETIME := 7200, MAX_NICKNAME_LEN := 19,
    LEGAL_NICKNAME_CHARACTERS :=
      "abcdefghijklmnopqrstuvwxyzABCDEFGHIJKLMNOPQRSTUVWXYZ0123456789",
    CONFIG_LEGAL_FILENAME_CHARACTERS :=
      "abcdefghijklmnopqrstuvwxyzABCDEFGHIJKLMNOPQRSTUVWXYZ0123456789.-_/",
    CONFDIR := "/usr/local/etc/tor",
    LOG_ERR := 3, LOG_WARN := 4, LOG_NOTICE := 5, LOG_INFO := 6, LOG_DEBUG := 7 }

/-- A sample environment: no configuration file exists, name resolution fails, the
default directory servers are accepted and `rend_config_services` succeeds. -/
def sample_env : config_env :=
  { fopen := fun _ => none, gethostname := none, tor_inet_aton := fun _ => none,
    gethostbyname := fun _ => none, htonl := fun n => n, is_internal_IP := fun _ => false,
    inet_ntoa := fun _ => "0.0.0.0", default_dirservers_ok := true,
    rend_config_services := fun _ => 0, pathlen_out_of_range := fun _ => false }

/-- The four option names whose lines are collected in `RendConfigLines`. -/
def hidden_service_names : List String :=
  ["HiddenServiceDir", "HiddenServicePort", "HiddenServiceNodes", "HiddenServiceExcludeNodes"]

/-- The line is a HiddenServiceDir, HiddenServicePort, HiddenServiceNodes or
HiddenServiceExcludeNodes line: the first entry whose option name begins with its key
is one of these four. -/
def hidden_service_line (c : config_line_t) : Bool :=
  match first_match c with
  | some e => hidden_service_names.contains e.key
  | none => false

/-- The constraints that `getconfig` validates, on the options it leaves: the ports are
not negative, `SocksPort` and `ORPort` are not both 0, `MaxConn`, `DirFetchPostPeriod`
and `KeepalivePeriod` are in range, `LogLevel` is one of the five level names and
`loglevel` is the level it names, a set `ORPort` comes with a `DataDirectory` and a
legal `Nickname`, and a set `DirPort` comes with `RecommendedVersions`. -/
def options_validated (k : or_constants) (o : or_options_t) : Prop :=
  0 ≤ o.int .ORPort ∧ 0 ≤ o.int .SocksPort ∧ 0 ≤ o.int .DirPort
    ∧ ¬ (o.int .SocksPort = 0 ∧ o.int .ORPort = 0)
    ∧ 1 ≤ o.int .MaxConn ∧ o.int .MaxConn < (k.MAXCONNECTIONS : Int)
    ∧ 1 ≤ o.int .DirFetchPostPeriod
    ∧ o.int .DirFetchPostPeriod ≤ ((k.MIN_ONION_KEY_LIFETIME / 2 : Nat) : Int)
    ∧ 1 ≤ o.int .KeepalivePeriod
    ∧ ((o.str .LogLevel = some "err" ∧ o.loglevel = k.LOG_ERR)
        ∨ (o.str .LogLevel = some "warn" ∧ o.loglevel = k.LOG_WARN)
        ∨ (o.str .LogLevel = some "notice" ∧ o.loglevel = k.LOG_NOTICE)
        ∨ (o.str .LogLevel = some "info" ∧ o.loglevel = k.LOG_INFO)
        ∨ (o.str .LogLevel = some "debug" ∧ o.loglevel = k.LOG_DEBUG))
    ∧ (o.int .ORPort ≠ 0 →
        o.str .DataDirectory ≠ none
          ∧ ∃ nick, o.str .Nickname = some nick
              ∧ (∀ ch ∈ nick.toList, ch ∈ k.LEGAL_NICKNAME_CHARACTERS.toList)
              ∧ nick.length ≤ k.MAX_NICKNAME_LEN)
    ∧ (o.int .DirPort ≠ 0 → o.str .RecommendedVersions ≠ none)


/-! ## C integers -/

theorem c_int_range (x : Int) : -2147483648 ≤ c_int x ∧ c_int x ≤ INT_MAX := by
  unfold c_int INT_MAX
  omega

theorem c_int_of_range (x : Int) (h1 : -2147483648 ≤ x) (h2 : x ≤ INT_MAX) : c_int x = x := by
  unfold c_int
  unfold INT_MAX at h2
  omega

/-! ## Atomic counter: proofs -/

theorem interleaving_perm {α : Type} {threads : List (List α)} {sched : List α}
    (h : interleaving threads sched) : sched.Perm threads.flatten := by
  induction h with
  | done threads h =>
    have : threads.flatten = [] := by
      rw [List.flatten_eq_nil_iff]; exact h
    rw [this]
  | step pre post op rest sched _ ih =>
    simp only [List.flatten_append, List.flatten_cons] at ih ⊢
    simp only [List.cons_append]
    exact (List.Perm.cons op ih).trans List.perm_middle.symm

theorem run_counter_ops_modEq (bits : Nat) (sched : List counter_op) (c : atomic_counter_t) :
    ((run_counter_ops bits c sched).val : Int) ≡
      (c.val : Int) + sum_added sched - sum_subtracted sched [ZMOD ((2 ^ bits : Nat) : Int)] := by
  induction sched generalizing c with
  | nil => simp [run_counter_ops, sum_added, sum_subtracted]
  | cons op rest ih =>
    have h := ih (op.apply bits c)
    simp only [run_counter_ops, List.foldl_cons] at h ⊢
    refine h.trans ?_
    have hM : 0 < 2 ^ bits := by positivity
    cases op with
    | add a =>
      simp only [counter_op.apply, atomic_counter_add, sum_added, sum_subtracted, List.map_cons,
        List.sum_cons, counter_op.added, counter_op.subtracted]
      have h1 : (((c.val + a) % 2 ^ bits : Nat) : Int) ≡ (c.val : Int) + a
          [ZMOD ((2 ^ bits : Nat) : Int)] := by
        push_cast
        exact Int.mod_modEq _ _
      have h2 := (h1.add_right ((((rest.map counter_op.added).sum : Nat) : Int))).sub_right
        ((((rest.map counter_op.subtracted).sum : Nat) : Int))
      push_cast at h2 ⊢
      convert h2 using 1
      ring
    | sub s =>
      simp only [counter_op.apply, atomic_counter_sub, sum_added, sum_subtracted, List.map_cons,
        List.sum_cons, counter_op.added, counter_op.subtracted]
      have hlt : s % 2 ^ bits < 2 ^ bits := Nat.mod_lt _ hM
      have h1 : (((c.val + (2 ^ bits - s % 2 ^ bits)) % 2 ^ bits : Nat) : Int) ≡ (c.val : Int) - s
          [ZMOD ((2 ^ bits : Nat) : Int)] := by
        rw [Int.natCast_mod]
        refine (Int.mod_modEq _ _).trans ?_
        rw [Nat.cast_add, Nat.cast_sub hlt.le, Int.natCast_mod]
        have e1 : ((s : Int) % ((2 ^ bits : Nat) : Int)) ≡ s [ZMOD ((2 ^ bits : Nat) : Int)] :=
          Int.mod_modEq _ _
        have e3 : (((2 ^ bits : Nat) : Int)) ≡ 0 [ZMOD ((2 ^ bits : Nat) : Int)] := by
          simp [Int.ModEq]
        have e4 := (Int.ModEq.refl (c.val : Int)).add (e3.sub e1)
        simpa [sub_eq_add_neg] using e4
      have h2 := (h1.add_right ((((rest.map counter_op.added).sum : Nat) : Int))).sub_right
        ((((rest.map counter_op.subtracted).sum : Nat) : Int))
      push_cast at h2 ⊢
      convert h2 using 1
      ring

theorem run_counter_ops_lt (bits : Nat) (sched : List counter_op) (c : atomic_counter_t)
    (hc : c.val < 2 ^ bits) : (run_counter_ops bits c sched).val < 2 ^ bits := by
  induction sched generalizing c with
  | nil => simpa [run_counter_ops] using hc
  | cons op rest ih =>
    simp only [run_counter_ops, List.foldl_cons]
    apply ih
    have hM : 0 < 2 ^ bits := by positivity
    cases op <;> simp only [counter_op.apply, atomic_counter_add, atomic_counter_sub] <;>
      exact Nat.mod_lt _ hM

theorem run_counter_ops_value (bits init : Nat) (threads : List (List counter_op))
    (sched : List counter_op) (hinit : init < 2 ^ bits) (h : interleaving threads sched) :
    ((atomic_counter_get (run_counter_ops bits ⟨init⟩ sched) : Nat) : Int) =
      ((init : Int) + sum_added threads.flatten - sum_subtracted threads.flatten)
        % ((2 ^ bits : Nat) : Int) := by
  have hp := interleaving_perm h
  have ha : sum_added sched = sum_added threads.flatten :=
    (hp.map counter_op.added).sum_eq
  have hs : sum_subtracted sched = sum_subtracted threads.flatten :=
    (hp.map counter_op.subtracted).sum_eq
  have hm := run_counter_ops_modEq bits sched ⟨init⟩
  have hl := run_counter_ops_lt bits sched ⟨init⟩ hinit
  rw [ha, hs] at hm
  unfold atomic_counter_get
  have hmod : ((run_counter_ops bits ⟨init⟩ sched).val : Int) % ((2 ^ bits : Nat) : Int)
      = ((run_counter_ops bits ⟨init⟩ sched).val : Int) := by
    apply Int.emod_eq_of_lt
    · exact Int.natCast_nonneg _
    · exact_mod_cast hl
  rw [← hmod]
  exact hm

/-- C1: for every initial value and every collection of per-thread sequences of
`atomic_counter_add` / `atomic_counter_sub` calls, every interleaving (each call one
atomic step) leaves `atomic_counter_get` returning
`initial + (sum of adds) - (sum of subs)` as an unsigned word, and two interleavings of
the same calls give the same result. -/
theorem atomic_counter_interleaving_sum (bits init : Nat) (threads : List (List counter_op))
    (s1 s2 : List counter_op) (hinit : init < 2 ^ bits)
    (h1 : interleaving threads s1) (h2 : interleaving threads s2) :
    ((atomic_counter_get (run_counter_ops bits ⟨init⟩ s1) : Nat) : Int) =
        ((init : Int) + sum_added threads.flatten - sum_subtracted threads.flatten)
          % ((2 ^ bits : Nat) : Int)
      ∧ atomic_counter_get (run_counter_ops bits ⟨init⟩ s1)
        = atomic_counter_get (run_counter_ops bits ⟨init⟩ s2) := by
  have e1 := run_counter_ops_value bits init threads s1 hinit h1
  have e2 := run_counter_ops_value bits init threads s2 hinit h2
  refine ⟨e1, ?_⟩
  have : ((atomic_counter_get (run_counter_ops bits ⟨init⟩ s1) : Nat) : Int)
      = ((atomic_counter_get (run_counter_ops bits ⟨init⟩ s2) : Nat) : Int) := by
    rw [e1, e2]
  exact_mod_cast this

/-- Witness for C1: an 8-bit counter at 250, two threads, two schedules; the counter
wraps around to 2. -/
theorem atomic_counter_interleaving_sum_witness :
    ((atomic_counter_get (run_counter_ops 8 ⟨250⟩
        [counter_op.add 10, counter_op.sub 1, counter_op.sub 3, counter_op.add 2]) : Nat) : Int) =
        ((250 : Int) + sum_added [[counter_op.add 10, counter_op.sub 3],
              [counter_op.sub 1, counter_op.add 2]].flatten
            - sum_subtracted [[counter_op.add 10, counter_op.sub 3],
              [counter_op.sub 1, counter_op.add 2]].flatten) % ((2 ^ 8 : Nat) : Int)
      ∧ atomic_counter_get (run_counter_ops 8 ⟨250⟩
          [counter_op.add 10, counter_op.sub 1, counter_op.sub 3, counter_op.add 2])
        = atomic_counter_get (run_counter_ops 8 ⟨250⟩
          [counter_op.sub 1, counter_op.add 2, counter_op.add 10, counter_op.sub 3]) :=
  atomic_counter_interleaving_sum 8 250
    [[counter_op.add 10, counter_op.sub 3], [counter_op.sub 1, counter_op.add 2]]
    [counter_op.add 10, counter_op.sub 1, counter_op.sub 3, counter_op.add 2]
    [counter_op.sub 1, counter_op.add 2, counter_op.add 10, counter_op.sub 3]
    (by decide)
    (interleaving.step [] [[counter_op.sub 1, counter_op.add 2]] (counter_op.add 10)
      [counter_op.sub 3] _
      (interleaving.step [[counter_op.sub 3]] [] (counter_op.sub 1) [counter_op.add 2] _
        (interleaving.step [] [[counter_op.add 2]] (counter_op.sub 3) [] _
          (interleaving.step [[]] [] (counter_op.add 2) [] _
            (interleaving.done [[], []] (by simp))))))
    (interleaving.step [[counter_op.add 10, counter_op.sub 3]] [] (counter_op.sub 1)
      [counter_op.add 2] _
      (interleaving.step [[counter_op.add 10, counter_op.sub 3]] [] (counter_op.add 2) [] _
        (interleaving.step [] [[]] (counter_op.add 10) [counter_op.sub 3] _
          (interleaving.step [] [[]] (counter_op.sub 3) [] _
            (interleaving.done [[], []] (by simp))))))

theorem exchange_seq_spec (ns : List Nat) (c : atomic_counter_t) :
    (exchange_seq c ns).1 = (c.val :: ns).dropLast
      ∧ (exchange_seq c ns).2.val = (c.val :: ns).getLast (List.cons_ne_nil _ _) := by
  induction ns generalizing c with
  | nil => simp [exchange_seq]
  | cons n ns ih =>
    have h := ih (atomic_counter_exchange c n).2
    simp only [exchange_seq, atomic_counter_exchange] at h ⊢
    refine ⟨?_, ?_⟩
    · rw [h.1]; simp [List.dropLast]
    · rw [h.2]; simp [List.getLast_cons]

/-- C2: `atomic_counter_exchange` on a counter holding `v` returns `v` and leaves `n`;
in a sequence of exchanges the returned values are the initial value followed by all
new values but the last, so each call returns what the update just before it wrote. -/
theorem atomic_counter_exchange_chain (v n : Nat) (ns : List Nat) :
    (atomic_counter_exchange ⟨v⟩ n).1 = v
      ∧ atomic_counter_get (atomic_counter_exchange ⟨v⟩ n).2 = n
      ∧ (exchange_seq ⟨v⟩ ns).1 = (v :: ns).dropLast
      ∧ atomic_counter_get (exchange_seq ⟨v⟩ ns).2 = (v :: ns).getLast (List.cons_ne_nil _ _) := by
  have h := exchange_seq_spec ns ⟨v⟩
  exact ⟨rfl, rfl, h.1, h.2⟩


/-! ## Condition variable: proofs -/

/-- Releasing a unit on the wakeup object touches neither the counters nor the list of
waiters. -/
theorem tor_cond_event_set_frame (s : cond_state_t) (pick : Nat) :
    (tor_cond_event_set s pick).cond.n_waiting = s.cond.n_waiting
      ∧ (tor_cond_event_set s pick).cond.n_to_wake = s.cond.n_to_wake
      ∧ (tor_cond_event_set s pick).cond.generation = s.cond.generation
      ∧ (tor_cond_event_set s pick).waiters = s.waiters
      ∧ (tor_cond_event_set s pick).runnable = s.runnable
      ∧ (tor_cond_event_set s pick).generation_at_start = s.generation_at_start := by
  unfold tor_cond_event_set
  split_ifs
  · exact ⟨rfl, rfl, rfl, rfl, rfl, rfl⟩
  · split <;> exact ⟨rfl, rfl, rfl, rfl, rfl, rfl⟩

theorem tor_cond_event_sets_frame (picks : List Nat) (s : cond_state_t) :
    (tor_cond_event_sets s picks).cond.n_waiting = s.cond.n_waiting
      ∧ (tor_cond_event_sets s picks).cond.n_to_wake = s.cond.n_to_wake
      ∧ (tor_cond_event_sets s picks).cond.generation = s.cond.generation
      ∧ (tor_cond_event_sets s picks).waiters = s.waiters
      ∧ (tor_cond_event_sets s picks).runnable = s.runnable
      ∧ (tor_cond_event_sets s picks).generation_at_start = s.generation_at_start := by
  induction picks generalizing s with
  | nil => exact ⟨rfl, rfl, rfl, rfl, rfl, rfl⟩
  | cons pick rest ih =>
    obtain ⟨a1, a2, a3, a4, a5, a6⟩ := tor_cond_event_set_frame s pick
    obtain ⟨b1, b2, b3, b4, b5, b6⟩ := ih (tor_cond_event_set s pick)
    exact ⟨b1.trans a1, b2.trans a2, b3.trans a3, b4.trans a4, b5.trans a5, b6.trans a6⟩

theorem tor_cond_signal_one_frame (s : cond_state_t) (pick : Nat) :
    (tor_cond_signal_one s pick).cond.n_waiting = s.cond.n_waiting
      ∧ (tor_cond_signal_one s pick).cond.n_to_wake
        = min (c_int (s.cond.n_to_wake + 1)) s.cond.n_waiting
      ∧ (tor_cond_signal_one s pick).cond.generation = c_int (s.cond.generation + 1)
      ∧ (tor_cond_signal_one s pick).waiters = s.waiters
      ∧ (tor_cond_signal_one s pick).runnable = s.runnable
      ∧ (tor_cond_signal_one s pick).generation_at_start = s.generation_at_start := by
  unfold tor_cond_signal_one
  exact tor_cond_event_set_frame _ _

theorem tor_cond_signal_all_frame (s : cond_state_t) (picks : List Nat) :
    (tor_cond_signal_all s picks).cond.n_waiting = s.cond.n_waiting
      ∧ (tor_cond_signal_all s picks).cond.n_to_wake = s.cond.n_waiting
      ∧ (tor_cond_signal_all s picks).cond.generation = c_int (s.cond.generation + 1)
      ∧ (tor_cond_signal_all s picks).waiters = s.waiters
      ∧ (tor_cond_signal_all s picks).runnable = s.runnable
      ∧ (tor_cond_signal_all s picks).generation_at_start = s.generation_at_start := by
  unfold tor_cond_signal_all
  exact tor_cond_event_sets_frame _ _

theorem cond_steps_cons (s : cond_state_t) (step : cond_step) (rest : List cond_step) :
    cond_steps s (step :: rest) = cond_steps (cond_step.apply s step) rest := rfl

theorem cond_steps_append (s : cond_state_t) (l1 l2 : List cond_step) :
    cond_steps s (l1 ++ l2) = cond_steps (cond_steps s l1) l2 := by
  simp only [cond_steps, List.foldl_append]

/-- While nothing is to be woken, a step that is not a signal releases nobody and
leaves `n_to_wake` at zero. -/
theorem cond_step_nothing_to_wake (s : cond_state_t) (step : cond_step)
    (ht : s.cond.n_to_wake = 0) (hs : step.is_signal = false) :
    (cond_step.apply s step).cond.n_to_wake = 0
      ∧ (cond_step.apply s step).runnable = s.runnable
      ∧ (step.is_wait_progress = true → (cond_step.apply s step).waiters = s.waiters) := by
  cases step with
  | wait_register tid => exact ⟨ht, rfl, fun h => by simp [cond_step.is_wait_progress] at h⟩
  | wait_block tid =>
    simp only [cond_step.apply, tor_cond_wait_block]
    split_ifs <;> exact ⟨ht, rfl, fun _ => rfl⟩
  | wait_wakeup tid =>
    simp only [cond_step.apply, tor_cond_wait_wakeup, tor_cond_wait_recheck, ht,
      lt_self_iff_false, decide_False, Bool.false_and, Bool.false_eq_true, if_false]
    split_ifs <;> exact ⟨ht, rfl, fun _ => rfl⟩
  | wait_deadline tid =>
    simp only [cond_step.apply, tor_cond_wait_deadline]
    split_ifs
    · exact ⟨ht, rfl, fun h => by simp [cond_step.is_wait_progress] at h⟩
    · exact ⟨ht, rfl, fun _ => rfl⟩
  | signal_one _ => simp [cond_step.is_signal] at hs
  | signal_all _ => simp [cond_step.is_signal] at hs

theorem cond_steps_nothing_to_wake (steps : List cond_step) (s : cond_state_t)
    (ht : s.cond.n_to_wake = 0) (hs : ∀ st ∈ steps, st.is_signal = false) :
    (cond_steps s steps).cond.n_to_wake = 0
      ∧ (cond_steps s steps).runnable = s.runnable
      ∧ ((∀ st ∈ steps, st.is_wait_progress = true) →
          (cond_steps s steps).waiters = s.waiters) := by
  induction steps generalizing s with
  | nil => exact ⟨ht, rfl, fun _ => rfl⟩
  | cons step rest ih =>
    obtain ⟨a1, a2, a3⟩ := cond_step_nothing_to_wake s step ht
      (hs step (List.mem_cons_self _ _))
    obtain ⟨b1, b2, b3⟩ := ih (cond_step.apply s step) a1
      (fun st hst => hs st (List.mem_cons_of_mem _ hst))
    rw [cond_steps_cons]
    refine ⟨b1, b2.trans a2, ?_⟩
    intro hp
    rw [b3 (fun st hst => hp st (List.mem_cons_of_mem _ hst)),
      a3 (hp step (List.mem_cons_self _ _))]


/-! ## Condition variable: waking the waiters -/

/-- One step of a schedule without signals, from a state in which the woken threads are
the waiters `orig` not yet released. -/
theorem cond_woken_inv_step (orig base : List Nat)
    (hk : (orig.length : Int) ≤ INT_MAX) (s : cond_state_t) (rel : List Nat)
    (step : cond_step) (hstep : step.is_later_wait orig = true)
    (hinv : cond_woken_inv orig base s rel) :
    ∃ rel2, cond_woken_inv orig base (cond_step.apply s step) rel2
      ∧ (∀ t ∈ rel, t ∈ rel2)
      ∧ (∀ t ∈ orig, step = cond_step.wait_wakeup t → t ∈ rel2) := by
  obtain ⟨j1, j2, j3, j4, j5, j6, j7⟩ := hinv
  cases step with
  | wait_register tid =>
    simp only [cond_step.is_later_wait, decide_eq_true_eq] at hstep
    refine ⟨rel, ⟨j1, j2, j3, ?_, j5, j6, ?_⟩, fun t h => h, ?_⟩
    · intro t
      simp only [cond_step.apply, tor_cond_wait_register]
      by_cases ht : t = tid
      · subst ht
        simp only [if_true]
        constructor
        · intro h; exact absurd h (by decide)
        · intro h; exact absurd h.1 hstep
      · simp only [ht, if_false]
        exact j4 t
    · intro t ht hrel
      have hne : t ≠ tid := fun e => hstep (e ▸ ht)
      simp only [cond_step.apply, tor_cond_wait_register, hne, if_false]
      exact j7 t ht hrel
    · intro t _ h
      cases h
  | wait_block tid =>
    refine ⟨rel, ?_, fun t h => h, ?_⟩
    · simp only [cond_step.apply, tor_cond_wait_block, j6, Bool.false_eq_true, if_false]
      split_ifs with hp
      · refine ⟨j1, j2, j3, ?_, j5, j6, j7⟩
        intro t
        simp only
        by_cases ht : t = tid
        · subst ht
          simp only [if_true]
          constructor
          · intro h; exact absurd h (by decide)
          · intro h
            have := (j4 t).mpr h
            rw [hp] at this
            exact absurd this (by decide)
        · simp only [ht, if_false]
          exact j4 t
      · exact ⟨j1, j2, j3, j4, j5, j6, j7⟩
    · intro t _ h
      cases h
  | wait_wakeup tid =>
    by_cases hp : s.phase tid = .woken
    · obtain ⟨ho, hr⟩ := (j4 tid).mp hp
      have hnd2 : (tid :: rel).Nodup := List.nodup_cons.mpr ⟨hr, j2⟩
      have hsub : (tid :: rel) ⊆ orig := by
        intro u hu
        rcases List.mem_cons.mp hu with h | h
        · rw [h]; exact ho
        · exact j3 u h
      have hlen : (tid :: rel).length ≤ orig.length := (hnd2.subperm hsub).length_le
      simp only [List.length_cons] at hlen
      have hpos : 0 < s.cond.n_to_wake := by
        rw [j5]
        omega
      have hre : tor_cond_wait_recheck s tid = true := by
        simp only [tor_cond_wait_recheck, Bool.and_eq_true, decide_eq_true_eq]
        exact ⟨hpos, j7 tid ho hr⟩
      refine ⟨rel ++ [tid], ?_, fun t h => List.mem_append_left _ h, ?_⟩
      · simp only [cond_step.apply, tor_cond_wait_wakeup, hp, hre, if_true]
        refine ⟨?_, ?_, ?_, ?_, ?_, j6, ?_⟩
        · simp only [j1, List.append_assoc]
        · rw [List.nodup_append]
          refine ⟨j2, List.nodup_singleton _, ?_⟩
          intro a ha hb
          simp only [List.mem_singleton] at hb
          rw [hb] at ha
          exact hr ha
        · intro t ht
          rcases List.mem_append.mp ht with h | h
          · exact j3 t h
          · simp only [List.mem_singleton] at h
            rw [h]; exact ho
        · intro t
          simp only
          by_cases ht : t = tid
          · subst ht
            simp only [if_true, List.mem_append, List.mem_singleton, or_true, not_true_eq_false,
              and_false, iff_false]
            decide
          · simp only [ht, if_false, List.mem_append, List.mem_singleton, or_false]
            exact j4 t
        · simp only [j5, List.length_append, List.length_singleton]
          unfold INT_MAX at hk
          simp only [c_int]
          push_cast
          omega
        · intro t ht hrel
          simp only
          apply j7 t ht
          intro h
          exact hrel (List.mem_append_left _ h)
      · intro t _ h
        cases h
        exact List.mem_append_right _ (List.mem_singleton_self _)
    · refine ⟨rel, ?_, fun t h => h, ?_⟩
      · simp only [cond_step.apply, tor_cond_wait_wakeup, hp, if_false]
        exact ⟨j1, j2, j3, j4, j5, j6, j7⟩
      · intro t ht h
        have e : tid = t := cond_step.wait_wakeup.inj h
        subst e
        by_contra hrel
        exact hp ((j4 tid).mpr ⟨ht, hrel⟩)
  | wait_deadline tid => simp [cond_step.is_later_wait] at hstep
  | signal_one _ => simp [cond_step.is_later_wait] at hstep
  | signal_all _ => simp [cond_step.is_later_wait] at hstep

/-- A whole schedule without signals, from a state in which the woken threads are the
waiters `orig` not yet released: only threads of `orig` are released, each at most once,
and every thread of `orig` that gets to re-check is released. -/
theorem cond_woken_inv_steps (orig base : List Nat)
    (hk : (orig.length : Int) ≤ INT_MAX) (steps : List cond_step) (s : cond_state_t)
    (rel : List Nat) (hsteps : ∀ st ∈ steps, st.is_later_wait orig = true)
    (hinv : cond_woken_inv orig base s rel) :
    ∃ rel2, cond_woken_inv orig base (cond_steps s steps) rel2
      ∧ (∀ t ∈ rel, t ∈ rel2)
      ∧ (∀ t ∈ orig, cond_step.wait_wakeup t ∈ steps → t ∈ rel2) := by
  induction steps generalizing s rel with
  | nil =>
    refine ⟨rel, hinv, fun t h => h, ?_⟩
    intro t _ h
    simp at h
  | cons step rest ih =>
    obtain ⟨rel1, i1, m1, w1⟩ := cond_woken_inv_step orig base hk s rel step
      (hsteps step (List.mem_cons_self _ _)) hinv
    obtain ⟨rel2, i2, m2, w2⟩ := ih (cond_step.apply s step) rel1
      (fun st hst => hsteps st (List.mem_cons_of_mem _ hst)) i1
    rw [cond_steps_cons]
    refine ⟨rel2, i2, fun t h => m2 t (m1 t h), ?_⟩
    intro t ht hmem
    rcases List.mem_cons.mp hmem with h | h
    · exact m2 t (w1 t ht h.symm)
    · exact w2 t ht h


/-- A unit released on the wakeup object while the threads `B`, at least one, are
blocked on it and the other waiters have returned from it: one thread of `B` returns
from the object, whatever the choice, and nothing else changes. -/
theorem tor_cond_event_set_wakes (s : cond_state_t) (pick : Nat) (B : List Nat)
    (hsub : ∀ t ∈ B, t ∈ s.waiters) (hblk : ∀ t ∈ B, s.phase t = .blocked)
    (hwok : ∀ t ∈ s.waiters, t ∉ B → s.phase t = .woken) (hne : B ≠ []) :
    ∃ b ∈ B, (tor_cond_event_set s pick).cond = s.cond
      ∧ (tor_cond_event_set s pick).phase
          = (fun u => if u = b then .woken else s.phase u) := by
  have hin : ∀ t ∈ s.waiters, s.phase t = .blocked → t ∈ B := by
    intro t ht hp
    by_contra hnot
    rw [hwok t ht hnot] at hp
    exact absurd hp (by decide)
  unfold tor_cond_event_set
  by_cases hp : pick ∈ s.waiters ∧ s.phase pick = .blocked
  · rw [if_pos hp]
    exact ⟨pick, hin pick hp.1 hp.2, rfl, rfl⟩
  · rw [if_neg hp]
    cases hf : s.waiters.find? (fun t => decide (s.phase t = .blocked)) with
    | some b =>
      have hb : s.phase b = .blocked := by simpa using List.find?_some hf
      exact ⟨b, hin b (List.mem_of_find?_eq_some hf) hb, rfl, rfl⟩
    | none =>
      exfalso
      rw [List.find?_eq_none] at hf
      obtain ⟨t, ht⟩ := List.exists_mem_of_ne_nil _ hne
      have := hf t (hsub t ht)
      simp only [decide_eq_true_eq] at this
      exact this (hblk t ht)

/-- The threads still blocked after one of the blocked threads `B` has returned from the
wakeup object. -/
theorem cond_blocked_erase (s s2 : cond_state_t) (B : List Nat) (b : Nat)
    (hB : B.Nodup) (hb : b ∈ B) (hw : s2.waiters = s.waiters)
    (hph : s2.phase = (fun u => if u = b then .woken else s.phase u))
    (hsub : ∀ t ∈ B, t ∈ s.waiters) (hblk : ∀ t ∈ B, s.phase t = .blocked)
    (hwok : ∀ t ∈ s.waiters, t ∉ B → s.phase t = .woken) :
    (B.erase b).Nodup ∧ (B.erase b).length + 1 = B.length
      ∧ (∀ t ∈ B.erase b, t ∈ s2.waiters) ∧ (∀ t ∈ B.erase b, s2.phase t = .blocked)
      ∧ (∀ t ∈ s2.waiters, t ∉ B.erase b → s2.phase t = .woken) := by
  have hmem : ∀ t, t ∈ B.erase b ↔ t ≠ b ∧ t ∈ B := fun t => hB.mem_erase_iff
  have hpos : 0 < B.length := List.length_pos_of_mem hb
  refine ⟨hB.erase b, ?_, ?_, ?_, ?_⟩
  · rw [List.length_erase_of_mem hb]
    omega
  · intro t ht
    rw [hw]
    exact hsub t ((hmem t).1 ht).2
  · intro t ht
    obtain ⟨h1, h2⟩ := (hmem t).1 ht
    rw [hph]
    simp only [h1, if_false]
    exact hblk t h2
  · intro t ht hnot
    rw [hw] at ht
    rw [hph]
    by_cases htb : t = b
    · simp only [htb, if_true]
    · simp only [htb, if_false]
      apply hwok t ht
      intro hB2
      exact hnot ((hmem t).2 ⟨htb, hB2⟩)

/-- As many units released on the wakeup object as threads are blocked on it: all of
them return from the object, whatever the choices, and the object is left as it
was. -/
theorem tor_cond_event_set_wakes_all (picks B : List Nat) (s : cond_state_t)
    (hlen : picks.length = B.length) (hB : B.Nodup)
    (hsub : ∀ t ∈ B, t ∈ s.waiters) (hblk : ∀ t ∈ B, s.phase t = .blocked)
    (hwok : ∀ t ∈ s.waiters, t ∉ B → s.phase t = .woken) :
    (tor_cond_event_sets s picks).cond = s.cond
      ∧ (∀ u ∈ s.waiters, (tor_cond_event_sets s picks).phase u = .woken)
      ∧ (∀ u, u ∉ s.waiters → (tor_cond_event_sets s picks).phase u = s.phase u) := by
  induction picks generalizing B s with
  | nil =>
    have hnil : B = [] := List.length_eq_zero.mp hlen.symm
    refine ⟨rfl, ?_, fun _ _ => rfl⟩
    intro u hu
    exact hwok u hu (by rw [hnil]; exact List.not_mem_nil u)
  | cons pick rest ih =>
    have hne : B ≠ [] := by
      intro h
      rw [h] at hlen
      simp at hlen
    obtain ⟨b, hb, e1, e2⟩ := tor_cond_event_set_wakes s pick B hsub hblk hwok hne
    obtain ⟨_, _, _, f4, _, _⟩ := tor_cond_event_set_frame s pick
    obtain ⟨c1, c2, c3, c4, c5⟩ := cond_blocked_erase s (tor_cond_event_set s pick) B b hB hb
      f4 e2 hsub hblk hwok
    have hlen2 : rest.length = (B.erase b).length := by
      simp only [List.length_cons] at hlen
      omega
    obtain ⟨h1, h2, h3⟩ := ih (B.erase b) (tor_cond_event_set s pick) hlen2 c1 c3 c4 c5
    have hstep : tor_cond_event_sets s (pick :: rest)
        = tor_cond_event_sets (tor_cond_event_set s pick) rest := rfl
    rw [hstep]
    refine ⟨h1.trans e1, ?_, ?_⟩
    · intro u hu
      exact h2 u (by rw [f4]; exact hu)
    · intro u hu
      rw [h3 u (by rw [f4]; exact hu), e2]
      have hub : u ≠ b := fun e => hu (e ▸ hsub b hb)
      simp only [hub, if_false]

/-- As many calls of `tor_cond_signal_one` as threads are blocked on the wakeup object:
all of them return from the object, whatever the choices, `n_to_wake` counts all the
waiters, and the generation has been bumped once for every call. -/
theorem tor_cond_signal_one_wakes_all (picks B : List Nat) (s : cond_state_t)
    (hlen : picks.length = B.length) (hB : B.Nodup)
    (hsub : ∀ t ∈ B, t ∈ s.waiters) (hblk : ∀ t ∈ B, s.phase t = .blocked)
    (hwok : ∀ t ∈ s.waiters, t ∉ B → s.phase t = .woken)
    (hn : s.cond.n_waiting = (s.waiters.length : Int))
    (hk : (s.waiters.length : Int) ≤ INT_MAX)
    (h0 : 0 ≤ s.cond.n_to_wake)
    (ht : s.cond.n_to_wake + (B.length : Int) = (s.waiters.length : Int))
    (hg1 : -2147483648 ≤ s.cond.generation)
    (hg2 : s.cond.generation + (picks.length : Int) ≤ INT_MAX) :
    (picks.foldl tor_cond_signal_one s).cond.event = s.cond.event
      ∧ (picks.foldl tor_cond_signal_one s).cond.n_waiting = s.cond.n_waiting
      ∧ (picks.foldl tor_cond_signal_one s).cond.n_to_wake = (s.waiters.length : Int)
      ∧ (picks.foldl tor_cond_signal_one s).cond.generation
          = s.cond.generation + (picks.length : Int)
      ∧ (picks.foldl tor_cond_signal_one s).waiters = s.waiters
      ∧ (picks.foldl tor_cond_signal_one s).runnable = s.runnable
      ∧ (picks.foldl tor_cond_signal_one s).generation_at_start = s.generation_at_start
      ∧ (∀ u ∈ s.waiters, (picks.foldl tor_cond_signal_one s).phase u = .woken)
      ∧ (∀ u, u ∉ s.waiters → (picks.foldl tor_cond_signal_one s).phase u = s.phase u) := by
  induction picks generalizing B s with
  | nil =>
    have hnil : B = [] := List.length_eq_zero.mp hlen.symm
    refine ⟨rfl, rfl, ?_, ?_, rfl, rfl, rfl, ?_, fun _ _ => rfl⟩
    · rw [hnil] at ht
      simpa using ht
    · simp
    · intro u hu
      exact hwok u hu (by rw [hnil]; exact List.not_mem_nil u)
  | cons pick rest ih =>
    have hne : B ≠ [] := by
      intro h
      rw [h] at hlen
      simp at hlen
    obtain ⟨f1, f2, f3, f4, f5, f6⟩ := tor_cond_signal_one_frame s pick
    obtain ⟨b, hb, e1, e2⟩ := tor_cond_event_set_wakes
      { s with
        cond := { s.cond with
                  n_to_wake := min (c_int (s.cond.n_to_wake + 1)) s.cond.n_waiting,
                  generation := c_int (s.cond.generation + 1) } }
      pick B hsub hblk hwok hne
    have e1' : (tor_cond_signal_one s pick).cond.event = s.cond.event := by
      unfold tor_cond_signal_one
      rw [e1]
    have e2' : (tor_cond_signal_one s pick).phase
        = (fun u => if u = b then .woken else s.phase u) := by
      unfold tor_cond_signal_one
      rw [e2]
    obtain ⟨c1, c2, c3, c4, c5⟩ := cond_blocked_erase s (tor_cond_signal_one s pick) B b hB hb
      f4 e2' hsub hblk hwok
    have hlen2 : rest.length = (B.erase b).length := by
      simp only [List.length_cons] at hlen
      omega
    have hc2 : ((B.erase b).length : Int) + 1 = (B.length : Int) := by exact_mod_cast c2
    simp only [List.length_cons, Nat.cast_add, Nat.cast_one] at hg2
    unfold INT_MAX at hk hg2
    have hrest : (0 : Int) ≤ (rest.length : Int) := Int.natCast_nonneg _
    have hBe : (0 : Int) ≤ ((B.erase b).length : Int) := Int.natCast_nonneg _
    have hcw : c_int (s.cond.n_to_wake + 1) = s.cond.n_to_wake + 1 :=
      c_int_of_range _ (by linarith) (by unfold INT_MAX; linarith)
    have hcg : c_int (s.cond.generation + 1) = s.cond.generation + 1 :=
      c_int_of_range _ (by linarith) (by unfold INT_MAX; linarith)
    have hle : s.cond.n_to_wake + 1 ≤ s.cond.n_waiting := by
      rw [hn]
      linarith
    have hwake : (tor_cond_signal_one s pick).cond.n_to_wake = s.cond.n_to_wake + 1 := by
      rw [f2, hcw, min_eq_left hle]
    obtain ⟨h1, h2, h3, h4, h5, h6, h7, h8, h9⟩ := ih (B.erase b) (tor_cond_signal_one s pick)
      hlen2 c1 c3 c4 c5 (by rw [f1, f4]; exact hn) (by rw [f4]; unfold INT_MAX; exact hk)
      (by rw [hwake]; linarith) (by rw [hwake, f4]; linarith)
      (by rw [f3, hcg]; linarith) (by rw [f3, hcg]; unfold INT_MAX; linarith)
    have hstep : (pick :: rest).foldl tor_cond_signal_one s
        = rest.foldl tor_cond_signal_one (tor_cond_signal_one s pick) := rfl
    rw [hstep]
    refine ⟨h1.trans e1', h2.trans f1, by rw [h3, f4], ?_, h5.trans f4, h6.trans f5,
      h7.trans f6, ?_, ?_⟩
    · rw [h4, f3, hcg]
      simp only [List.length_cons, Nat.cast_add, Nat.cast_one]
      ring
    · intro u hu
      exact h8 u (by rw [f4]; exact hu)
    · intro u hu
      rw [h9 u (by rw [f4]; exact hu), e2']
      have hub : u ≠ b := fun e => hu (e ▸ hsub b hb)
      simp only [hub, if_false]

theorem cond_step_progress_not_signal (st : cond_step) (h : st.is_wait_progress = true) :
    st.is_signal = false := by
  cases st <;> simp_all [cond_step.is_wait_progress, cond_step.is_signal]

theorem cond_step_later_not_signal (orig : List Nat) (st : cond_step)
    (h : st.is_later_wait orig = true) : st.is_signal = false := by
  cases st <;> simp_all [cond_step.is_later_wait, cond_step.is_signal]

theorem cond_run_each_progress (order : List Nat) :
    ∀ st ∈ cond_run_each order, st.is_wait_progress = true := by
  intro st hst
  simp only [cond_run_each, List.mem_flatMap, List.mem_cons, List.mem_singleton,
    List.not_mem_nil, or_false] at hst
  obtain ⟨t, _, h | h⟩ := hst <;> rw [h] <;> rfl

theorem cond_run_each_cons (t : Nat) (rest : List Nat) :
    cond_run_each (t :: rest)
      = cond_step.wait_block t :: cond_step.wait_wakeup t :: cond_run_each rest := by
  simp [cond_run_each]

theorem tor_cond_wait_wakeup_not_woken (s : cond_state_t) (t : Nat)
    (h : s.phase t ≠ .woken) : tor_cond_wait_wakeup s t = s := by
  simp only [tor_cond_wait_wakeup, h, if_false]

theorem tor_cond_wait_wakeup_passes (s : cond_state_t) (t : Nat) (hp : s.phase t = .woken)
    (hpos : 0 < s.cond.n_to_wake) (hg : s.generation_at_start t ≤ s.cond.generation) :
    (tor_cond_wait_wakeup s t).runnable = s.runnable ++ [t]
      ∧ (tor_cond_wait_wakeup s t).cond.n_to_wake = c_int (s.cond.n_to_wake - 1) := by
  have hre : tor_cond_wait_recheck s t = true := by
    simp only [tor_cond_wait_recheck, Bool.and_eq_true, decide_eq_true_eq]
    exact ⟨hpos, hg⟩
  simp only [tor_cond_wait_wakeup, hp, hre, if_true, and_self]

theorem tor_cond_wait_wakeup_fails (s : cond_state_t) (t : Nat)
    (hre : tor_cond_wait_recheck s t = false) :
    (tor_cond_wait_wakeup s t).cond = s.cond
      ∧ (tor_cond_wait_wakeup s t).waiters = s.waiters
      ∧ (tor_cond_wait_wakeup s t).runnable = s.runnable
      ∧ (∀ u, (tor_cond_wait_wakeup s t).phase u ≠ .idle → s.phase u ≠ .idle) := by
  unfold tor_cond_wait_wakeup
  rw [hre]
  simp only [Bool.false_eq_true, if_false]
  split_ifs with hp
  · refine ⟨rfl, rfl, rfl, ?_⟩
    intro u hu
    simp only at hu
    by_cases e : u = t
    · rw [e, hp]; decide
    · simpa only [e, if_false] using hu
  · exact ⟨rfl, rfl, rfl, fun _ h => h⟩

theorem tor_cond_wait_block_frame (s : cond_state_t) (t : Nat) :
    (tor_cond_wait_block s t).cond.n_to_wake = s.cond.n_to_wake
      ∧ (tor_cond_wait_block s t).cond.generation = s.cond.generation
      ∧ (tor_cond_wait_block s t).waiters = s.waiters
      ∧ (tor_cond_wait_block s t).runnable = s.runnable
      ∧ (tor_cond_wait_block s t).generation_at_start = s.generation_at_start
      ∧ (∀ u, u ≠ t → (tor_cond_wait_block s t).phase u = s.phase u)
      ∧ (∀ u, (tor_cond_wait_block s t).phase u ≠ .idle → s.phase u ≠ .idle) := by
  unfold tor_cond_wait_block
  split_ifs with hp he
  · refine ⟨rfl, rfl, rfl, rfl, rfl, ?_, ?_⟩
    · intro u hu
      simp only [hu, if_false]
    · intro u hu
      simp only at hu
      by_cases e : u = t
      · rw [e, hp]; decide
      · simpa only [e, if_false] using hu
  · refine ⟨rfl, rfl, rfl, rfl, rfl, ?_, ?_⟩
    · intro u hu
      simp only [hu, if_false]
    · intro u hu
      simp only at hu
      by_cases e : u = t
      · rw [e, hp]; decide
      · simpa only [e, if_false] using hu
  · exact ⟨rfl, rfl, rfl, rfl, rfl, fun _ _ => rfl, fun _ h => h⟩

theorem tor_cond_wait_block_signalled (s : cond_state_t) (t : Nat)
    (hp : s.phase t = .registered) (he : s.cond.event = true) :
    (tor_cond_wait_block s t).phase t = .woken := by
  simp only [tor_cond_wait_block, hp, he, if_true]

theorem tor_cond_wait_block_unsignalled (s : cond_state_t) (t : Nat)
    (he : s.cond.event = false) :
    (tor_cond_wait_block s t).cond = s.cond
      ∧ (s.phase t ≠ .woken → (tor_cond_wait_block s t).phase t ≠ .woken) := by
  unfold tor_cond_wait_block
  split_ifs with hp h2
  · rw [he] at h2
    exact absurd h2 (by decide)
  · refine ⟨rfl, fun _ => ?_⟩
    simp only [if_true]
    decide
  · exact ⟨rfl, fun h => h⟩

/-- With one thread to wake, blocking and re-checking release at most one thread, and
that thread is a waiter. -/
theorem cond_steps_one_to_wake (steps : List cond_step) (s : cond_state_t)
    (hI : ∀ t, s.phase t ≠ .idle → t ∈ s.waiters) (h1 : s.cond.n_to_wake = 1)
    (hs : ∀ st ∈ steps, st.is_wait_progress = true) :
    (cond_steps s steps).runnable = s.runnable
      ∨ ∃ t ∈ s.waiters, (cond_steps s steps).runnable = s.runnable ++ [t] := by
  induction steps generalizing s with
  | nil => exact Or.inl rfl
  | cons step rest ih =>
    have hrest : ∀ st ∈ rest, st.is_wait_progress = true :=
      fun st hst => hs st (List.mem_cons_of_mem _ hst)
    have hhead := hs step (List.mem_cons_self _ _)
    rw [cond_steps_cons]
    cases step with
    | wait_block tid =>
      obtain ⟨b1, _, b3, b4, _, _, b7⟩ := tor_cond_wait_block_frame s tid
      have := ih (tor_cond_wait_block s tid)
        (fun t ht => by rw [b3]; exact hI t (b7 t ht)) (b1.trans h1) hrest
      rw [b3, b4] at this
      exact this
    | wait_wakeup tid =>
      by_cases hp : s.phase tid = .woken
      · cases hre : tor_cond_wait_recheck s tid with
        | true =>
          right
          refine ⟨tid, hI tid (by rw [hp]; decide), ?_⟩
          simp only [tor_cond_wait_recheck, Bool.and_eq_true, decide_eq_true_eq] at hre
          obtain ⟨p1, p2⟩ := tor_cond_wait_wakeup_passes s tid hp hre.1 hre.2
          have hn : (cond_step.apply s (cond_step.wait_wakeup tid)).cond.n_to_wake = 0 := by
            show (tor_cond_wait_wakeup s tid).cond.n_to_wake = 0
            rw [p2, h1]
            decide
          obtain ⟨_, g2, _⟩ := cond_steps_nothing_to_wake rest _ hn
            (fun st hst => cond_step_progress_not_signal st (hrest st hst))
          rw [g2]
          exact p1
        | false =>
          obtain ⟨w1, w2, w3, w4⟩ := tor_cond_wait_wakeup_fails s tid hre
          have := ih (tor_cond_wait_wakeup s tid)
            (fun t ht => by rw [w2]; exact hI t (w4 t ht)) (by rw [w1]; exact h1) hrest
          rw [w2, w3] at this
          exact this
      · have happ : cond_step.apply s (cond_step.wait_wakeup tid) = s :=
          tor_cond_wait_wakeup_not_woken s tid hp
        rw [happ]
        exact ih s hI h1 hrest
    | wait_register tid => simp [cond_step.is_wait_progress] at hhead
    | wait_deadline tid => simp [cond_step.is_wait_progress] at hhead
    | signal_one _ => simp [cond_step.is_wait_progress] at hhead
    | signal_all _ => simp [cond_step.is_wait_progress] at hhead

/-- With one thread to wake and the wakeup object signalled, the first registered
thread that blocks takes the signal and is released by its re-check. -/
theorem cond_steps_take_signal (s : cond_state_t) (t : Nat) (rest : List cond_step)
    (he : s.cond.event = true) (h1 : s.cond.n_to_wake = 1) (hp : s.phase t = .registered)
    (hg : s.generation_at_start t ≤ s.cond.generation)
    (hs : ∀ st ∈ rest, st.is_wait_progress = true) :
    (cond_steps s (cond_step.wait_block t :: cond_step.wait_wakeup t :: rest)).runnable
      = s.runnable ++ [t] := by
  rw [cond_steps_cons, cond_steps_cons]
  obtain ⟨b1, b2, _, b4, b5, _, _⟩ := tor_cond_wait_block_frame s t
  have hwk := tor_cond_wait_block_signalled s t hp he
  obtain ⟨p1, p2⟩ := tor_cond_wait_wakeup_passes (tor_cond_wait_block s t) t hwk
    (by rw [b1, h1]; decide) (by rw [b5, b2]; exact hg)
  have hn : (cond_step.apply (cond_step.apply s (cond_step.wait_block t))
      (cond_step.wait_wakeup t)).cond.n_to_wake = 0 := by
    show (tor_cond_wait_wakeup (tor_cond_wait_block s t) t).cond.n_to_wake = 0
    rw [p2, b1, h1]
    decide
  obtain ⟨_, g2, _⟩ := cond_steps_nothing_to_wake rest _ hn
    (fun st hst => cond_step_progress_not_signal st (hs st hst))
  rw [g2]
  show (tor_cond_wait_wakeup (tor_cond_wait_block s t) t).runnable = s.runnable ++ [t]
  rw [p1, b4]

/-- With one thread to wake and thread `b`, and no other, back from the wakeup object,
`b` is released once every waiter has had its turn. -/
theorem cond_steps_woken_released (todo : List Nat) (s : cond_state_t) (b : Nat)
    (hb : b ∈ todo) (hp : s.phase b = .woken) (he : s.cond.event = false)
    (h1 : s.cond.n_to_wake = 1) (hg : s.generation_at_start b ≤ s.cond.generation)
    (hothers : ∀ u ∈ todo, u ≠ b → s.phase u ≠ .woken) :
    (cond_steps s (cond_run_each todo)).runnable = s.runnable ++ [b] := by
  induction todo generalizing s with
  | nil => simp at hb
  | cons t rest ih =>
    rw [cond_run_each_cons, cond_steps_cons, cond_steps_cons]
    obtain ⟨b1, b2, _, b4, b5, b6, _⟩ := tor_cond_wait_block_frame s t
    obtain ⟨u1, u2⟩ := tor_cond_wait_block_unsignalled s t he
    by_cases e : t = b
    · subst e
      have hblock : cond_step.apply s (cond_step.wait_block t) = s := by
        simp only [cond_step.apply, tor_cond_wait_block, hp]
        rfl
      rw [hblock]
      obtain ⟨p1, p2⟩ := tor_cond_wait_wakeup_passes s t hp (by rw [h1]; decide) hg
      have hn : (cond_step.apply s (cond_step.wait_wakeup t)).cond.n_to_wake = 0 := by
        show (tor_cond_wait_wakeup s t).cond.n_to_wake = 0
        rw [p2, h1]
        decide
      obtain ⟨_, g2, _⟩ := cond_steps_nothing_to_wake (cond_run_each rest) _ hn
        (fun st hst => cond_step_progress_not_signal st (cond_run_each_progress rest st hst))
      rw [g2]
      exact p1
    · have hbrest : b ∈ rest := by
        rcases List.mem_cons.mp hb with h | h
        · exact absurd h.symm e
        · exact h
      have hbt : b ≠ t := fun h => e h.symm
      have hnw : (tor_cond_wait_block s t).phase t ≠ .woken :=
        u2 (hothers t (List.mem_cons_self _ _) e)
      have hwake : cond_step.apply (cond_step.apply s (cond_step.wait_block t))
          (cond_step.wait_wakeup t) = tor_cond_wait_block s t :=
        tor_cond_wait_wakeup_not_woken _ t hnw
      rw [hwake]
      have := ih (tor_cond_wait_block s t) hbrest
        (by rw [b6 b hbt]; exact hp) (by rw [u1]; exact he) (b1.trans h1)
        (by rw [b5, b2]; exact hg)
        (by
          intro u hu hub
          by_cases hut : u = t
          · rw [hut]; exact hnw
          · rw [b6 u hut]
            exact hothers u (List.mem_cons_of_mem _ hu) hub)
      rw [b4] at this
      exact this


/-- What releasing a unit on the wakeup object does: one blocked waiter returns from
the object, or, when no waiter is blocked, the object is signalled. -/
theorem tor_cond_event_set_cases (s : cond_state_t) (pick : Nat) :
    (∃ b ∈ s.waiters, s.phase b = .blocked
        ∧ (tor_cond_event_set s pick).cond = s.cond
        ∧ (tor_cond_event_set s pick).phase
            = (fun u => if u = b then .woken else s.phase u))
      ∨ ((∀ t ∈ s.waiters, s.phase t ≠ .blocked)
        ∧ (tor_cond_event_set s pick).cond.event = true
        ∧ (tor_cond_event_set s pick).phase = s.phase) := by
  unfold tor_cond_event_set
  by_cases hp : pick ∈ s.waiters ∧ s.phase pick = .blocked
  · rw [if_pos hp]
    exact Or.inl ⟨pick, hp.1, hp.2, rfl, rfl⟩
  · rw [if_neg hp]
    cases hf : s.waiters.find? (fun t => decide (s.phase t = .blocked)) with
    | some b =>
      left
      refine ⟨b, List.mem_of_find?_eq_some hf, ?_, rfl, rfl⟩
      simpa using List.find?_some hf
    | none =>
      right
      rw [List.find?_eq_none] at hf
      refine ⟨?_, rfl, rfl⟩
      intro t ht
      simpa using hf t ht

/-- C3 as stated fails. Threads 7 and 9 have registered in `tor_cond_wait` and are about
to block when `tor_cond_signal_one` is called twice: the wakeup object, which has no
queue depth, keeps one signal. Thread 7 takes it and is released; thread 9 blocks and
stays blocked although `n_to_wake` is still 1. -/
theorem tor_cond_signal_one_twice_wakes_one :
    (cond_steps tor_cond_init
        [cond_step.wait_register 7, cond_step.wait_register 9,
         cond_step.signal_one 7, cond_step.signal_one 9,
         cond_step.wait_block 7, cond_step.wait_wakeup 7,
         cond_step.wait_block 9, cond_step.wait_wakeup 9]).runnable = [7]
      ∧ (cond_steps tor_cond_init
        [cond_step.wait_register 7, cond_step.wait_register 9,
         cond_step.signal_one 7, cond_step.signal_one 9,
         cond_step.wait_block 7, cond_step.wait_wakeup 7,
         cond_step.wait_block 9, cond_step.wait_wakeup 9]).phase 9 = wait_phase.blocked
      ∧ (cond_steps tor_cond_init
        [cond_step.wait_register 7, cond_step.wait_register 9,
         cond_step.signal_one 7, cond_step.signal_one 9,
         cond_step.wait_block 7, cond_step.wait_wakeup 7,
         cond_step.wait_block 9, cond_step.wait_wakeup 9]).cond.event = false
      ∧ (cond_steps tor_cond_init
        [cond_step.wait_register 7, cond_step.wait_register 9,
         cond_step.signal_one 7, cond_step.signal_one 9,
         cond_step.wait_block 7, cond_step.wait_wakeup 7,
         cond_step.wait_block 9, cond_step.wait_wakeup 9]).cond.n_to_wake = 1 := by
  decide

/-- C3, amended: on a condition variable with `k >= 1` threads waiting and nothing yet
to wake, one `tor_cond_signal_one` releases exactly one waiter: at most one, whatever
blocking and re-checking follows, and exactly one once every waiter has had its turn to
block and re-check, whichever blocked thread `pick` the wakeup object would wake. When
all `k` waiters are blocked on the wakeup object, `k` calls of `tor_cond_signal_one`
wake all of them, whatever the choices `picks` of the wakeup object: in every schedule
without further signals only these `k` threads are released, none more than once, and
each of them as soon as it re-checks. -/
theorem tor_cond_signal_one_wakes_exactly_one (s : cond_state_t) (k : Nat) (pick : Nat)
    (hk : 1 ≤ k) (hq : cond_quiet s k) :
    (∀ steps : List cond_step, (∀ st ∈ steps, st.is_wait_progress = true) →
        (cond_steps (tor_cond_signal_one s pick) steps).runnable = s.runnable
          ∨ ∃ t ∈ s.waiters,
              (cond_steps (tor_cond_signal_one s pick) steps).runnable = s.runnable ++ [t])
      ∧ (∀ order : List Nat, order.Perm s.waiters →
          ∃ t ∈ s.waiters,
            (cond_steps (tor_cond_signal_one s pick) (cond_run_each order)).runnable
              = s.runnable ++ [t])
      ∧ ((∀ t ∈ s.waiters, s.phase t = .blocked) →
          s.cond.generation + (k : Int) ≤ INT_MAX →
          ∀ picks : List Nat, picks.length = k →
          ∀ steps : List cond_step, (∀ st ∈ steps, st.is_later_wait s.waiters = true) →
            ∃ rel : List Nat,
              (cond_steps (picks.foldl tor_cond_signal_one s) steps).runnable
                  = s.runnable ++ rel
                ∧ rel.Nodup ∧ (∀ t ∈ rel, t ∈ s.waiters)
                ∧ (∀ t ∈ s.waiters, cond_step.wait_wakeup t ∈ steps → t ∈ rel)
                ∧ ((∀ t ∈ s.waiters, cond_step.wait_wakeup t ∈ steps) →
                    rel.Perm s.waiters)) := by
  obtain ⟨q1, q2, q3, q4, q5, q6, q7, q8, q9, q10, q11⟩ := hq
  obtain ⟨f1, f2, f3, f4, f5, f6⟩ := tor_cond_signal_one_frame s pick
  have hkI : (1 : Int) ≤ (k : Int) := by exact_mod_cast hk
  have hn1 : (tor_cond_signal_one s pick).cond.n_to_wake = 1 := by
    rw [f2, q4, q2]
    have : c_int (0 + 1) = 1 := by decide
    rw [this]
    exact min_eq_left hkI
  have hgen : (tor_cond_signal_one s pick).cond.generation = s.cond.generation + 1 := by
    rw [f3]
    exact c_int_of_range _ (by omega) (by unfold INT_MAX at q11 ⊢; omega)
  have hcase := tor_cond_event_set_cases
    { s with
      cond := { s.cond with
                n_to_wake := min (c_int (s.cond.n_to_wake + 1)) s.cond.n_waiting,
                generation := c_int (s.cond.generation + 1) } }
    pick
  refine ⟨?_, ?_, ?_⟩
  · intro steps hs
    have hI : ∀ t, (tor_cond_signal_one s pick).phase t ≠ .idle →
        t ∈ (tor_cond_signal_one s pick).waiters := by
      intro t ht
      rw [f4]
      by_contra hnot
      apply ht
      rcases hcase with ⟨b, hb, _, _, hph⟩ | ⟨_, _, hph⟩
      · have : (tor_cond_signal_one s pick).phase = _ := hph
        rw [this]
        have hne : t ≠ b := fun e => hnot (e ▸ hb)
        simp only [hne, if_false]
        exact q7 t hnot
      · have : (tor_cond_signal_one s pick).phase = _ := hph
        rw [this]
        exact q7 t hnot
    have := cond_steps_one_to_wake steps (tor_cond_signal_one s pick) hI hn1 hs
    rw [f4, f5] at this
    exact this
  · intro order hperm
    rcases hcase with ⟨b, hb, hbl, hc, hph⟩ | ⟨hnb, hev, hph⟩
    · have hph2 : (tor_cond_signal_one s pick).phase = (fun u => if u = b then .woken else s.phase u) :=
        hph
      have hc2 : (tor_cond_signal_one s pick).cond.event = s.cond.event := by
        have : (tor_cond_signal_one s pick).cond = _ := hc
        rw [this]
      have hev : s.cond.event = false := by
        cases he : s.cond.event with
        | false => rfl
        | true => exact absurd hbl (q8 he b hb)
      refine ⟨b, hb, ?_⟩
      have := cond_steps_woken_released order (tor_cond_signal_one s pick) b (hperm.symm.subset hb)
        (by rw [hph2]; simp) (hc2.trans hev) hn1
        (by rw [f6, hgen]; have := q9 b hb; omega)
        (by
          intro u hu hub
          rw [hph2]
          simp only [hub, if_false]
          rcases q6 u (hperm.subset hu) with h | h <;> rw [h] <;> decide)
      rw [f5] at this
      exact this
    · have hph2 : (tor_cond_signal_one s pick).phase = s.phase := hph
      have hev2 : (tor_cond_signal_one s pick).cond.event = true := hev
      cases order with
      | nil =>
        have := hperm.length_eq
        simp only [List.length_nil] at this
        omega
      | cons t rest =>
        have ht : t ∈ s.waiters := hperm.subset (List.mem_cons_self _ _)
        have hreg : s.phase t = .registered := by
          rcases q6 t ht with h | h
          · exact h
          · exact absurd h (hnb t ht)
        refine ⟨t, ht, ?_⟩
        rw [cond_run_each_cons]
        have := cond_steps_take_signal (tor_cond_signal_one s pick) t (cond_run_each rest) hev2 hn1
          (by rw [hph2]; exact hreg)
          (by rw [f6, hgen]; have := q9 t ht; omega)
          (cond_run_each_progress rest)
        rw [f5] at this
        exact this
  · intro hblk hgk picks hlen steps hsteps
    have hev : s.cond.event = false := by
      cases he : s.cond.event with
      | false => rfl
      | true =>
        have hne : s.waiters ≠ [] := by
          intro h
          rw [h] at q1
          simp only [List.length_nil] at q1
          omega
        obtain ⟨t, ht⟩ := List.exists_mem_of_ne_nil _ hne
        exact absurd (hblk t ht) (q8 he t ht)
    obtain ⟨a1, a2, a3, a4, a5, a6, a7, a8, a9⟩ := tor_cond_signal_one_wakes_all picks
      s.waiters s (by rw [hlen, q1]) q5 (fun _ h => h) hblk (fun t _ hnot => absurd ‹_› hnot)
      (by rw [q2, q1]) (by rw [q1]; exact q3) (by rw [q4])
      (by rw [q4, zero_add]) q10 (by rw [hlen]; exact hgk)
    have hinv : cond_woken_inv s.waiters s.runnable (picks.foldl tor_cond_signal_one s) [] := by
      refine ⟨by rw [a6, List.append_nil], List.nodup_nil, by simp, ?_, ?_, a1.trans hev, ?_⟩
      · intro t
        constructor
        · intro h
          refine ⟨?_, by simp⟩
          by_contra hnot
          rw [a9 t hnot, q7 t hnot] at h
          exact absurd h (by decide)
        · intro h
          exact a8 t h.1
      · rw [a3]; simp
      · intro t ht _
        rw [a7, a4]
        have := q9 t ht
        have : (0 : Int) ≤ (picks.length : Int) := Int.natCast_nonneg _
        omega
    obtain ⟨rel, ⟨j1, j2, j3, _⟩, _, w⟩ := cond_woken_inv_steps s.waiters s.runnable
      (by rw [q1]; exact q3) steps _ [] hsteps hinv
    exact ⟨rel, j1, j2, j3, w, fun hall =>
      (List.perm_ext_iff_of_nodup j2 q5).2 (fun t => ⟨j3 t, fun ht => w t ht (hall t ht)⟩)⟩

theorem cond_two_blocked_quiet :
    cond_quiet cond_two_blocked 2 ∧ ∀ t ∈ cond_two_blocked.waiters,
      cond_two_blocked.phase t = .blocked := by
  have hw : cond_two_blocked.waiters = [7, 9] := by decide
  have hc : cond_two_blocked.cond
      = { event := false, n_waiting := 2, n_to_wake := 0, generation := 0 } := by decide
  have h7 : cond_two_blocked.phase 7 = .blocked := by decide
  have h9 : cond_two_blocked.phase 9 = .blocked := by decide
  have hg7 : cond_two_blocked.generation_at_start 7 = 0 := by decide
  have hg9 : cond_two_blocked.generation_at_start 9 = 0 := by decide
  have hid : ∀ t, t ≠ 7 → t ≠ 9 → cond_two_blocked.phase t = .idle := by
    intro t a b
    simp [cond_two_blocked, cond_steps, cond_step.apply, tor_cond_wait_register,
      tor_cond_wait_block, tor_cond_init, a, b]
  have hall : ∀ t ∈ cond_two_blocked.waiters, cond_two_blocked.phase t = .blocked := by
    intro t ht
    rw [hw] at ht
    simp only [List.mem_cons, List.mem_singleton, List.not_mem_nil, or_false] at ht
    rcases ht with e | e <;> subst e <;> assumption
  refine ⟨⟨by rw [hw]; rfl, by rw [hc]; rfl, by decide, by rw [hc], by rw [hw]; decide,
    fun t ht => Or.inr (hall t ht), ?_, ?_, ?_, by rw [hc]; decide, by rw [hc]; decide⟩, hall⟩
  · intro t ht
    rw [hw] at ht
    simp only [List.mem_cons, List.mem_singleton, List.not_mem_nil, or_false, not_or] at ht
    exact hid t ht.1 ht.2
  · intro he
    rw [hc] at he
    exact absurd he (by decide)
  · intro t ht
    rw [hw] at ht
    simp only [List.mem_cons, List.mem_singleton, List.not_mem_nil, or_false] at ht
    rcases ht with e | e <;> subst e
    · rw [hg7, hc]
    · rw [hg9, hc]

/-- Witness for C3: threads 7 and 9 are blocked in `tor_cond_wait`; the wakeup object
wakes thread 9 first. -/
theorem tor_cond_signal_one_wakes_exactly_one_witness :
    cond_quiet cond_two_blocked 2
      ∧ (∃ t ∈ cond_two_blocked.waiters,
          (cond_steps (tor_cond_signal_one cond_two_blocked 9)
            (cond_run_each [9, 7])).runnable = cond_two_blocked.runnable ++ [t])
      ∧ (∃ rel : List Nat,
          (cond_steps ([9, 7].foldl tor_cond_signal_one cond_two_blocked)
              [cond_step.wait_wakeup 9, cond_step.wait_register 3, cond_step.wait_block 3,
               cond_step.wait_wakeup 3, cond_step.wait_wakeup 7,
               cond_step.wait_wakeup 9]).runnable = cond_two_blocked.runnable ++ rel
            ∧ rel.Perm cond_two_blocked.waiters) :=
  ⟨cond_two_blocked_quiet.1,
    (tor_cond_signal_one_wakes_exactly_one cond_two_blocked 2 9 (by decide)
      cond_two_blocked_quiet.1).2.1 [9, 7] (by decide),
    (((tor_cond_signal_one_wakes_exactly_one cond_two_blocked 2 9 (by decide)
      cond_two_blocked_quiet.1).2.2 cond_two_blocked_quiet.2 (by decide) [9, 7] rfl
      [cond_step.wait_wakeup 9, cond_step.wait_register 3, cond_step.wait_block 3,
       cond_step.wait_wakeup 3, cond_step.wait_wakeup 7, cond_step.wait_wakeup 9]
      (by decide)).imp
      (fun _ h => ⟨h.1, h.2.2.2.2 (by decide)⟩))⟩

/-- C4 as stated fails. Thread 1 has registered in `tor_cond_wait` and is about to block
when `tor_cond_signal_all` is called; thread 2 begins waiting after the call and reaches
the wakeup object first. Thread 2 takes the signal, passes the re-check (its captured
generation 1 is at most the current generation 1) and is released by the earlier call;
thread 1, which was waiting at the time of the call, stays blocked. -/
theorem tor_cond_signal_all_releases_late_waiter :
    (cond_steps tor_cond_init
        [cond_step.wait_register 1, cond_step.signal_all [], cond_step.wait_register 2,
         cond_step.wait_block 2, cond_step.wait_wakeup 2,
         cond_step.wait_block 1, cond_step.wait_wakeup 1]).runnable = [2]
      ∧ (cond_steps tor_cond_init
        [cond_step.wait_register 1, cond_step.signal_all [], cond_step.wait_register 2,
         cond_step.wait_block 2, cond_step.wait_wakeup 2,
         cond_step.wait_block 1, cond_step.wait_wakeup 1]).phase 1 = wait_phase.blocked
      ∧ (cond_steps tor_cond_init
        [cond_step.wait_register 1, cond_step.signal_all []]).cond.n_waiting = 1
      ∧ (cond_steps tor_cond_init
        [cond_step.wait_register 1, cond_step.signal_all []]).waiters = [1]
      ∧ (cond_steps tor_cond_init
        [cond_step.wait_register 1, cond_step.signal_all [], cond_step.wait_register 2,
         cond_step.wait_block 2, cond_step.wait_wakeup 2,
         cond_step.wait_block 1, cond_step.wait_wakeup 1]).cond.n_to_wake = 0 := by
  decide

/-- C4, amended: on a condition variable whose `k` waiting threads are all blocked on
the wakeup object, with nothing yet to wake, `tor_cond_signal_all` sets `n_to_wake` to
`n_waiting`, bumps `generation`, and every one of the `k` waiters returns from the
wakeup object. In every schedule without further signals, in which other threads may
begin waiting, block and re-check, only the `k` waiters are released, none more than
once, each as soon as it re-checks; a thread that begins waiting after the call is
not released by it. All of this holds whatever the choices `picks` of the wakeup
object. -/
theorem tor_cond_signal_all_wakes_blocked (s : cond_state_t) (k : Nat) (picks : List Nat)
    (hq : cond_quiet s k) (hblk : ∀ t ∈ s.waiters, s.phase t = .blocked) :
    (tor_cond_signal_all s picks).cond.n_to_wake = s.cond.n_waiting
      ∧ (tor_cond_signal_all s picks).cond.n_waiting = (k : Int)
      ∧ (tor_cond_signal_all s picks).cond.generation = s.cond.generation + 1
      ∧ (∀ t ∈ s.waiters, (tor_cond_signal_all s picks).phase t = .woken)
      ∧ (∀ steps : List cond_step, (∀ st ∈ steps, st.is_later_wait s.waiters = true) →
          ∃ rel : List Nat,
            (cond_steps (tor_cond_signal_all s picks) steps).runnable = s.runnable ++ rel
              ∧ rel.Nodup ∧ (∀ t ∈ rel, t ∈ s.waiters)
              ∧ (∀ t ∈ s.waiters, cond_step.wait_wakeup t ∈ steps → t ∈ rel)
              ∧ ((∀ t ∈ s.waiters, cond_step.wait_wakeup t ∈ steps) →
                  rel.Perm s.waiters)) := by
  obtain ⟨q1, q2, q3, q4, q5, q6, q7, q8, q9, q10, q11⟩ := hq
  obtain ⟨f1, f2, f3, f4, f5, f6⟩ := tor_cond_signal_all_frame s picks
  have hgen : (tor_cond_signal_all s picks).cond.generation = s.cond.generation + 1 := by
    rw [f3]
    exact c_int_of_range _ (by omega) (by unfold INT_MAX at q11 ⊢; omega)
  have hcount : (tor_cond_picks picks s.cond.n_waiting.toNat).length = s.waiters.length := by
    rw [q2, q1, Int.toNat_ofNat]
    simp only [tor_cond_picks, List.length_map, List.length_range]
  obtain ⟨w1, w2, w3⟩ := tor_cond_event_set_wakes_all
    (tor_cond_picks picks s.cond.n_waiting.toNat) s.waiters
    { s with
      cond := { s.cond with
                n_to_wake := s.cond.n_waiting,
                generation := c_int (s.cond.generation + 1) } }
    hcount q5 (fun _ h => h) hblk (fun t _ hnot => absurd ‹_› hnot)
  have w1 : (tor_cond_signal_all s picks).cond.event = s.cond.event := by
    unfold tor_cond_signal_all
    rw [w1]
  have w2 : ∀ u ∈ s.waiters, (tor_cond_signal_all s picks).phase u = .woken := w2
  have w3 : ∀ u, u ∉ s.waiters → (tor_cond_signal_all s picks).phase u = s.phase u := w3
  refine ⟨f2, by rw [f1, q2], hgen, w2, ?_⟩
  intro steps hsteps
  cases he : s.cond.event with
  | false =>
    have hinv : cond_woken_inv s.waiters s.runnable (tor_cond_signal_all s picks) [] := by
      refine ⟨by rw [f5, List.append_nil], List.nodup_nil, by simp, ?_, ?_, ?_, ?_⟩
      · intro t
        constructor
        · intro h
          refine ⟨?_, by simp⟩
          by_contra hnot
          rw [w3 t hnot] at h
          have : s.phase t = .idle := q7 t hnot
          rw [this] at h
          exact absurd h (by decide)
        · intro h
          exact w2 t h.1
      · rw [f2, q2, q1]; simp
      · rw [w1]; exact he
      · intro t ht _
        rw [f6, hgen]
        have := q9 t ht
        omega
    obtain ⟨rel, ⟨j1, j2, j3, _⟩, _, w⟩ := cond_woken_inv_steps s.waiters s.runnable
      (by rw [q1]; exact q3) steps _ [] hsteps hinv
    exact ⟨rel, j1, j2, j3, w, fun hall =>
      (List.perm_ext_iff_of_nodup j2 q5).2 (fun t => ⟨j3 t, fun ht => w t ht (hall t ht)⟩)⟩
  | true =>
    have hnil : s.waiters = [] := by
      cases hws : s.waiters with
      | nil => rfl
      | cons t rest =>
        have ht : t ∈ s.waiters := by rw [hws]; exact List.mem_cons_self _ _
        exact absurd (hblk t ht) (q8 he t ht)
    have hk0 : k = 0 := by rw [← q1, hnil]; rfl
    have h0 : (tor_cond_signal_all s picks).cond.n_to_wake = 0 := by
      rw [f2, q2, hk0]; rfl
    obtain ⟨_, r, _⟩ := cond_steps_nothing_to_wake steps (tor_cond_signal_all s picks) h0
      (fun st hst => cond_step_later_not_signal s.waiters st (hsteps st hst))
    refine ⟨[], by rw [r, f5, List.append_nil], List.nodup_nil, by simp, ?_, ?_⟩
    · intro t ht
      rw [hnil] at ht
      exact absurd ht (List.not_mem_nil t)
    · intro _
      rw [hnil]

/-- Witness for C4: threads 7 and 9 are blocked in `tor_cond_wait`; thread 3 begins to
wait after the call. -/
theorem tor_cond_signal_all_wakes_blocked_witness :
    cond_quiet cond_two_blocked 2
      ∧ (∀ t ∈ cond_two_blocked.waiters, cond_two_blocked.phase t = .blocked)
      ∧ (tor_cond_signal_all cond_two_blocked [9, 7]).cond.n_to_wake
          = cond_two_blocked.cond.n_waiting
      ∧ (∃ rel : List Nat,
          (cond_steps (tor_cond_signal_all cond_two_blocked [9, 7])
              [cond_step.wait_register 3, cond_step.wait_block 3, cond_step.wait_wakeup 3,
               cond_step.wait_wakeup 9, cond_step.wait_wakeup 7]).runnable
            = cond_two_blocked.runnable ++ rel
            ∧ (∀ t ∈ rel, t ∈ cond_two_blocked.waiters)
            ∧ rel.Perm cond_two_blocked.waiters) :=
  ⟨cond_two_blocked_quiet.1, cond_two_blocked_quiet.2,
    (tor_cond_signal_all_wakes_blocked cond_two_blocked 2 [9, 7] cond_two_blocked_quiet.1
      cond_two_blocked_quiet.2).1,
    ((tor_cond_signal_all_wakes_blocked cond_two_blocked 2 [9, 7] cond_two_blocked_quiet.1
      cond_two_blocked_quiet.2).2.2.2.2
      [cond_step.wait_register 3, cond_step.wait_block 3, cond_step.wait_wakeup 3,
       cond_step.wait_wakeup 9, cond_step.wait_wakeup 7]
      (by decide)).imp
      (fun _ h => ⟨h.1, h.2.2.1, h.2.2.2.2 (by decide)⟩)⟩

/-- C5: `tor_cond_signal_one` on a condition variable without waiters leaves
`n_waiting` and `n_to_wake` at zero, and a thread that begins to wait afterwards is not
released by it: whatever steps other than signals follow, nobody becomes runnable, and
whatever blocking and re-checking of any threads follows, the thread is still in its
wait. -/
theorem tor_cond_signal_one_not_remembered (s : cond_state_t) (pick : Nat)
    (hw : s.cond.n_waiting = 0) (ht : s.cond.n_to_wake = 0) (hb : s.waiters = []) :
    (tor_cond_signal_one s pick).cond.n_waiting = 0
      ∧ (tor_cond_signal_one s pick).cond.n_to_wake = 0
      ∧ (tor_cond_signal_one s pick).waiters = []
      ∧ (tor_cond_signal_one s pick).runnable = s.runnable
      ∧ (∀ (tid : Nat) (steps : List cond_step), (∀ st ∈ steps, st.is_signal = false) →
          (cond_steps (tor_cond_wait_register (tor_cond_signal_one s pick) tid) steps).runnable
            = s.runnable)
      ∧ (∀ (tid : Nat) (steps : List cond_step),
          (∀ st ∈ steps, st.is_wait_progress = true) →
          (cond_steps (tor_cond_wait_register (tor_cond_signal_one s pick) tid) steps).runnable
              = s.runnable
            ∧ (cond_steps (tor_cond_wait_register (tor_cond_signal_one s pick) tid) steps).waiters
              = [tid]) := by
  obtain ⟨f1, f2, _, f4, f5, _⟩ := tor_cond_signal_one_frame s pick
  have h0 : (tor_cond_signal_one s pick).cond.n_to_wake = 0 := by
    rw [f2, ht, hw]
    decide
  refine ⟨f1.trans hw, h0, f4.trans hb, f5, ?_, ?_⟩
  · intro tid steps hs
    obtain ⟨_, g2, _⟩ := cond_steps_nothing_to_wake steps
      (tor_cond_wait_register (tor_cond_signal_one s pick) tid) h0 hs
    rw [g2]
    exact f5
  · intro tid steps hs
    have hsig : ∀ st ∈ steps, st.is_signal = false := by
      intro st hst
      have := hs st hst
      cases st <;> simp_all [cond_step.is_wait_progress, cond_step.is_signal]
    obtain ⟨_, g2, g3⟩ := cond_steps_nothing_to_wake steps
      (tor_cond_wait_register (tor_cond_signal_one s pick) tid) h0 hsig
    refine ⟨g2.trans f5, ?_⟩
    rw [g3 hs]
    simp only [tor_cond_wait_register, f4, hb, List.nil_append]

/-- Witness for C5: a signal on a fresh condition variable. -/
theorem tor_cond_signal_one_not_remembered_witness :
    (tor_cond_signal_one tor_cond_init 0).cond.n_waiting = 0
      ∧ (tor_cond_signal_one tor_cond_init 0).cond.n_to_wake = 0
      ∧ (tor_cond_signal_one tor_cond_init 0).waiters = []
      ∧ (tor_cond_signal_one tor_cond_init 0).runnable = tor_cond_init.runnable
      ∧ (∀ (tid : Nat) (steps : List cond_step), (∀ st ∈ steps, st.is_signal = false) →
          (cond_steps (tor_cond_wait_register (tor_cond_signal_one tor_cond_init 0) tid)
            steps).runnable = tor_cond_init.runnable)
      ∧ (∀ (tid : Nat) (steps : List cond_step),
          (∀ st ∈ steps, st.is_wait_progress = true) →
          (cond_steps (tor_cond_wait_register (tor_cond_signal_one tor_cond_init 0) tid)
              steps).runnable = tor_cond_init.runnable
            ∧ (cond_steps (tor_cond_wait_register (tor_cond_signal_one tor_cond_init 0) tid)
              steps).waiters = [tid]) :=
  tor_cond_signal_one_not_remembered tor_cond_init 0 rfl rfl rfl


/-! ## Alert sockets and thread-local slots: proofs -/

/-- C6: `alert_sockets_create` uses the first backend, in the order eventfd2, eventfd,
pipe2, pipe, socketpair, that is not disabled by `flags` and whose construction
succeeds: the chosen backend is enabled and constructible and every backend before it
is disabled or fails; it fails exactly when every enabled backend fails; and with all
flags but `ASOCKS_NOSOCKETPAIR` set it succeeds whenever socketpair succeeds. -/
theorem alert_sockets_create_first_enabled (constructs : alert_backend → Bool) (flags : Nat) :
    (∀ b, alert_sockets_create constructs flags = some b →
        b.disabled flags = false ∧ constructs b = true
          ∧ ∀ b2 : alert_backend, b2.priority < b.priority →
              b2.disabled flags = true ∨ constructs b2 = false)
      ∧ (alert_sockets_create constructs flags = none ↔
          ∀ b : alert_backend, b.disabled flags = false → constructs b = false)
      ∧ (alert_sockets_create_result constructs flags = -1 ↔
          ∀ b : alert_backend, b.disabled flags = false → constructs b = false)
      ∧ (alert_sockets_create_result constructs flags = 0 ↔
          ∃ b : alert_backend, b.disabled flags = false ∧ constructs b = true)
      ∧ (constructs alert_backend.socketpair = true →
          alert_sockets_create constructs
            (ASOCKS_NOEVENTFD2 ||| ASOCKS_NOEVENTFD ||| ASOCKS_NOPIPE2 ||| ASOCKS_NOPIPE)
            = some alert_backend.socketpair) := by
  have hnone : alert_sockets_create constructs flags = none ↔
      ∀ b : alert_backend, b.disabled flags = false → constructs b = false := by
    unfold alert_sockets_create
    rw [List.find?_eq_none]
    constructor
    · intro h b hb
      have := h b (by cases b <;> simp [alert_backends])
      simpa [hb] using this
    · intro h b _
      cases hb : b.disabled flags
      · simp [h b hb]
      · simp
  refine ⟨?_, hnone, ?_, ?_, ?_⟩
  · intro b hb
    unfold alert_sockets_create at hb
    have hp := List.find?_some hb
    simp only [Bool.and_eq_true, Bool.not_eq_true'] at hp
    refine ⟨hp.1, hp.2, ?_⟩
    intro b2 hlt
    rw [List.find?_eq_some] at hb
    obtain ⟨_, as, bs, hsplit, hall⟩ := hb
    have hmem : b2 ∈ as := by
      cases b <;> cases b2 <;> simp only [alert_backend.priority] at hlt <;>
        first
        | omega
        | (simp only [alert_backends] at hsplit
           rcases as with _ | ⟨a1, _ | ⟨a2, _ | ⟨a3, _ | ⟨a4, _ | ⟨a5, as⟩⟩⟩⟩⟩ <;>
             simp_all)
    have := hall b2 hmem
    cases hd : b2.disabled flags
    · right; simpa [hd] using this
    · left; rfl
  · unfold alert_sockets_create_result
    rw [← hnone]
    cases alert_sockets_create constructs flags <;> simp
  · unfold alert_sockets_create_result
    have : (∃ b : alert_backend, b.disabled flags = false ∧ constructs b = true)
        ↔ ¬ (alert_sockets_create constructs flags = none) := by
      rw [hnone]
      push_neg
      constructor
      · rintro ⟨b, h1, h2⟩; exact ⟨b, h1, by simp [h2]⟩
      · rintro ⟨b, h1, h2⟩; exact ⟨b, h1, by simpa using h2⟩
    rw [this]
    cases alert_sockets_create constructs flags <;> simp
  · intro hs
    have d1 : alert_backend.eventfd2.disabled
        (ASOCKS_NOEVENTFD2 ||| ASOCKS_NOEVENTFD ||| ASOCKS_NOPIPE2 ||| ASOCKS_NOPIPE) = true := by
      decide
    have d2 : alert_backend.eventfd.disabled
        (ASOCKS_NOEVENTFD2 ||| ASOCKS_NOEVENTFD ||| ASOCKS_NOPIPE2 ||| ASOCKS_NOPIPE) = true := by
      decide
    have d3 : alert_backend.pipe2.disabled
        (ASOCKS_NOEVENTFD2 ||| ASOCKS_NOEVENTFD ||| ASOCKS_NOPIPE2 ||| ASOCKS_NOPIPE) = true := by
      decide
    have d4 : alert_backend.pipe.disabled
        (ASOCKS_NOEVENTFD2 ||| ASOCKS_NOEVENTFD ||| ASOCKS_NOPIPE2 ||| ASOCKS_NOPIPE) = true := by
      decide
    have d5 : alert_backend.socketpair.disabled
        (ASOCKS_NOEVENTFD2 ||| ASOCKS_NOEVENTFD ||| ASOCKS_NOPIPE2 ||| ASOCKS_NOPIPE) = false := by
      decide
    simp only [alert_sockets_create, alert_backends, List.find?, d1, d2, d3, d4, d5, hs,
      Bool.not_true, Bool.false_and, Bool.not_false, Bool.true_and]


theorem alert_sockets_alerts_pending (socks : alert_sockets_t) (n : Nat) :
    (alert_sockets_alerts socks n).pending = socks.pending + n
      ∧ (alert_sockets_alerts socks n).nonblocking = socks.nonblocking := by
  induction n with
  | zero => exact ⟨rfl, rfl⟩
  | succ n ih =>
    simp only [alert_sockets_alerts, alert_sockets_alert, ih]
    exact ⟨by omega, trivial⟩

/-- On a non-blocking pair, with a buffer of at least one byte and a bound of more reads
than bytes pending, the drain loop returns 0 and has read everything. -/
theorem alert_sockets_drain_loop_returns (bufsize : Nat) (hbuf : 1 ≤ bufsize) (fuel : Nat)
    (socks : alert_sockets_t) (hnb : socks.nonblocking = true)
    (hfuel : socks.pending < fuel) :
    alert_sockets_drain_loop bufsize fuel socks
      = drain_outcome.returned 0 { pending := 0, nonblocking := true } := by
  induction fuel generalizing socks with
  | zero => omega
  | succ fuel ih =>
    obtain ⟨p, nb⟩ := socks
    simp only at hnb hfuel
    subst hnb
    by_cases hp : p = 0
    · subst hp
      simp [alert_sockets_drain_loop, alert_sockets_read]
    · have hc : ¬ (min bufsize p = 0) := by omega
      simp only [alert_sockets_drain_loop, alert_sockets_read, hp, hc, if_false]
      apply ih
      · rfl
      · simp only
        omega

/-- On a blocking descriptor the same loop does not return: once nothing is left to
read, the next `read` blocks. -/
theorem alert_sockets_drain_blocking_blocks (bufsize : Nat) (hbuf : 1 ≤ bufsize) (fuel : Nat)
    (socks : alert_sockets_t) (hnb : socks.nonblocking = false)
    (hfuel : socks.pending < fuel) :
    alert_sockets_drain_loop bufsize fuel socks = drain_outcome.blocks := by
  induction fuel generalizing socks with
  | zero => omega
  | succ fuel ih =>
    obtain ⟨p, nb⟩ := socks
    simp only at hnb hfuel
    subst hnb
    by_cases hp : p = 0
    · subst hp
      simp [alert_sockets_drain_loop, alert_sockets_read]
    · have hc : ¬ (min bufsize p = 0) := by omega
      simp only [alert_sockets_drain_loop, alert_sockets_read, hp, hc, if_false]
      apply ih
      · rfl
      · simp only
        omega

/-- C7: on a non-blocking alert-socket pair, drained with a buffer of at least one
byte: after `n >= 1` alert calls with no drain in between the read side is ready; a
drain, whatever is pending and however many partial reads it takes, returns 0 and
leaves the read side not ready; a further drain leaves it not ready, and the next alert
makes it ready again; a drain with no pending alert returns 0 from its first `read`,
which finds nothing and does not block, and leaves the pair as it was. -/
theorem alert_sockets_ready_until_drain (socks : alert_sockets_t) (n bufsize : Nat)
    (hn : 1 ≤ n) (hbuf : 1 ≤ bufsize) (hnb : socks.nonblocking = true) :
    alert_sockets_read_ready (alert_sockets_alerts socks n) = true
      ∧ alert_sockets_drain bufsize (alert_sockets_alerts socks n)
        = drain_outcome.returned 0 { pending := 0, nonblocking := true }
      ∧ alert_sockets_drain bufsize socks
        = drain_outcome.returned 0 { pending := 0, nonblocking := true }
      ∧ alert_sockets_read_ready
          ((alert_sockets_drain bufsize socks).socks_after socks) = false
      ∧ alert_sockets_read_ready
          ((alert_sockets_drain bufsize
            ((alert_sockets_drain bufsize socks).socks_after socks)).socks_after socks) = false
      ∧ alert_sockets_read_ready
          (alert_sockets_alert ((alert_sockets_drain bufsize socks).socks_after socks)).2 = true
      ∧ (alert_sockets_read_ready socks = false →
          alert_sockets_read socks bufsize = (read_result.would_block, socks)
            ∧ alert_sockets_drain bufsize socks = drain_outcome.returned 0 socks) := by
  have hd : ∀ s : alert_sockets_t, s.nonblocking = true →
      alert_sockets_drain bufsize s
        = drain_outcome.returned 0 { pending := 0, nonblocking := true } := by
    intro s hs
    exact alert_sockets_drain_loop_returns bufsize hbuf _ s hs (Nat.lt_succ_self _)
  obtain ⟨hp, hq⟩ := alert_sockets_alerts_pending socks n
  have h1 := hd socks hnb
  refine ⟨?_, hd _ (by rw [hq]; exact hnb), h1, ?_, ?_, ?_, ?_⟩
  · simp only [alert_sockets_read_ready, hp, decide_eq_true_eq]
    omega
  · rw [h1]; rfl
  · rw [h1]
    simp only [drain_outcome.socks_after]
    rw [hd _ rfl]
    rfl
  · rw [h1]; rfl
  · intro h
    simp only [alert_sockets_read_ready, decide_eq_false_iff_not, not_lt,
      Nat.le_zero_eq] at h
    obtain ⟨p, nb⟩ := socks
    simp only at h hnb
    subst h
    subst hnb
    refine ⟨by simp [alert_sockets_read], ?_⟩
    exact hd _ rfl

/-- Witness for C7: three alerts on a new pair, drained with a buffer of two bytes. -/
theorem alert_sockets_ready_until_drain_witness :
    alert_sockets_read_ready (alert_sockets_alerts alert_sockets_new 3) = true
      ∧ alert_sockets_drain 2 (alert_sockets_alerts alert_sockets_new 3)
        = drain_outcome.returned 0 { pending := 0, nonblocking := true }
      ∧ alert_sockets_drain 2 alert_sockets_new
        = drain_outcome.returned 0 { pending := 0, nonblocking := true }
      ∧ alert_sockets_read_ready
          ((alert_sockets_drain 2 alert_sockets_new).socks_after alert_sockets_new) = false
      ∧ alert_sockets_read_ready
          ((alert_sockets_drain 2
            ((alert_sockets_drain 2 alert_sockets_new).socks_after
              alert_sockets_new)).socks_after alert_sockets_new) = false
      ∧ alert_sockets_read_ready
          (alert_sockets_alert
            ((alert_sockets_drain 2 alert_sockets_new).socks_after alert_sockets_new)).2 = true
      ∧ (alert_sockets_read_ready alert_sockets_new = false →
          alert_sockets_read alert_sockets_new 2
              = (read_result.would_block, alert_sockets_new)
            ∧ alert_sockets_drain 2 alert_sockets_new
              = drain_outcome.returned 0 alert_sockets_new) :=
  alert_sockets_ready_until_drain alert_sockets_new 3 2 (by decide) (by decide) rfl

theorem tor_threadlocal_sets_append (tl : tor_threadlocal_t) (history : List (Nat × Nat))
    (call : Nat × Nat) :
    tor_threadlocal_sets tl (history ++ [call])
      = tor_threadlocal_set (tor_threadlocal_sets tl history) call.1 call.2 := by
  simp only [tor_threadlocal_sets, List.foldl_append, List.foldl_cons, List.foldl_nil]

theorem tor_threadlocal_get_sets (history : List (Nat × Nat)) (tid : Nat) :
    tor_threadlocal_get (tor_threadlocal_sets tor_threadlocal_init history) tid
      = (last_set_by history tid).getD 0 := by
  induction history using List.reverseRecOn with
  | nil => rfl
  | append_singleton history call ih =>
    rw [tor_threadlocal_sets_append]
    by_cases h : call.1 = tid
    · simp [tor_threadlocal_get, tor_threadlocal_set, last_set_by, List.filter_append, h]
    · have h2 : ¬ tid = call.1 := fun e => h e.symm
      simp only [tor_threadlocal_get, tor_threadlocal_set, h2, if_false] at ih ⊢
      rw [ih]
      simp [last_set_by, List.filter_append, h]

/-- C8: in an initialised thread-local slot, `tor_threadlocal_get` in thread `tid`
returns the value most recently passed to `tor_threadlocal_set` in `tid`, or null when
`tid` never set it; and a `tor_threadlocal_set` in thread `tid` leaves what any other
thread `other` reads unchanged. -/
theorem tor_threadlocal_per_thread (history : List (Nat × Nat)) (tid other value : Nat)
    (threadlocal : tor_threadlocal_t) (hne : other ≠ tid) :
    tor_threadlocal_get (tor_threadlocal_sets tor_threadlocal_init history) tid
        = (last_set_by history tid).getD 0
      ∧ tor_threadlocal_get tor_threadlocal_init tid = 0
      ∧ tor_threadlocal_get (tor_threadlocal_set threadlocal tid value) tid = value
      ∧ tor_threadlocal_get (tor_threadlocal_set threadlocal tid value) other
        = tor_threadlocal_get threadlocal other := by
  refine ⟨tor_threadlocal_get_sets history tid, rfl, ?_, ?_⟩
  · simp [tor_threadlocal_get, tor_threadlocal_set]
  · simp [tor_threadlocal_get, tor_threadlocal_set, hne]

/-- Witness for C8: thread 1 sets 10 then 30, thread 2 sets 20 in between. -/
theorem tor_threadlocal_per_thread_witness :
    tor_threadlocal_get (tor_threadlocal_sets tor_threadlocal_init [(1, 10), (2, 20), (1, 30)]) 1
        = (last_set_by [(1, 10), (2, 20), (1, 30)] 1).getD 0
      ∧ tor_threadlocal_get tor_threadlocal_init 1 = 0
      ∧ tor_threadlocal_get (tor_threadlocal_set tor_threadlocal_init 1 5) 1 = 5
      ∧ tor_threadlocal_get (tor_threadlocal_set tor_threadlocal_init 1 5) 2
        = tor_threadlocal_get tor_threadlocal_init 2 :=
  tor_threadlocal_per_thread [(1, 10), (2, 20), (1, 30)] 1 2 5 tor_threadlocal_init (by decide)


/-! ## Option assignment: proofs -/

/-- The function `atoi` returns an `int`: numbers beyond 32 bits wrap around, numbers
beyond a `long` saturate first. -/
theorem atoi_is_int :
    atoi "2147483648" = -2147483648 ∧ atoi "4294967297" = 1 ∧ atoi "4294968196" = 900
      ∧ atoi " -12x" = -12 ∧ atoi "99999999999999999999" = -1 := by
  decide

/-- With the 32-bit `atoi` the lines `RunAsDaemon 4294967297` and `MaxConn 2147483648`
are accepted and store 1 and -2147483648. -/
theorem config_assign_stores_int :
    (config_assign options_zero [⟨"RunAsDaemon", "4294967297"⟩]).1 = 0
      ∧ (config_assign options_zero [⟨"RunAsDaemon", "4294967297"⟩]).2.int .RunAsDaemon = 1
      ∧ (config_assign options_zero [⟨"MaxConn", "2147483648"⟩]).2.int .MaxConn
        = -2147483648 := by
  decide

theorem strncasecmp_eq_zero_iff (k x : List Char) :
    strncasecmp k x k.length = 0 ↔ begins_ci k x = true := by
  induction k generalizing x with
  | nil => simp [strncasecmp, begins_ci]
  | cons a k ih =>
    cases x with
    | nil => simp [strncasecmp, begins_ci]
    | cons b x =>
      simp only [List.length_cons, strncasecmp, begins_ci, Bool.and_eq_true, decide_eq_true_eq]
      by_cases h : tolower a = tolower b
      · simp only [h, if_true, true_and]
        exact ih x
      · simp only [h, if_false, false_and, iff_false]
        omega

theorem begins_ci_common (k x y : List Char) (hx : begins_ci k x = true)
    (hy : begins_ci k y = true) : begins_ci k (common_start x y) = true := by
  induction k generalizing x y with
  | nil => simp [begins_ci]
  | cons a k ih =>
    cases x with
    | nil => simp [begins_ci] at hx
    | cons b x =>
      cases y with
      | nil => simp [begins_ci] at hy
      | cons d y =>
        simp only [begins_ci, Bool.and_eq_true, decide_eq_true_eq] at hx hy
        have hbd : tolower b = tolower d := hx.1.symm.trans hy.1
        simp only [common_start, hbd, if_true, begins_ci, Bool.and_eq_true, decide_eq_true_eq]
        exact ⟨hx.1.trans hbd, ih x y hx.2 hy.2⟩

theorem begins_ci_trans (k x y : List Char) (hx : begins_ci k x = true)
    (hy : begins_ci x y = true) : begins_ci k y = true := by
  induction k generalizing x y with
  | nil => simp [begins_ci]
  | cons a k ih =>
    cases x with
    | nil => simp [begins_ci] at hx
    | cons b x =>
      cases y with
      | nil => simp [begins_ci] at hy
      | cons d y =>
        simp only [begins_ci, Bool.and_eq_true, decide_eq_true_eq] at hx hy ⊢
        exact ⟨hx.1.trans hy.1, ih x y hx.2 hy.2⟩

/-- What `config_compare` returns: non-zero exactly when the entry takes the line. -/
theorem config_compare_fst (options : or_options_t) (c : config_line_t) (e : config_entry) :
    (config_compare options c e.key e.type e.arg).1
      = if entry_accepts c e then 1 else 0 := by
  unfold config_compare entry_accepts entry_matches value_fits
  have hlen : c.key.length = c.key.toList.length := rfl
  rw [hlen]
  by_cases hm : begins_ci c.key.toList e.key.toList = true
  · have h0 := (strncasecmp_eq_zero_iff c.key.toList e.key.toList).mpr hm
    simp only [h0, ne_eq, not_true_eq_false, if_false, hm, Bool.true_and]
    by_cases hI : e.type = CONFIG_TYPE_INT
    · simp [hI, CONFIG_TYPE_INT, CONFIG_TYPE_BOOL]
    · simp only [hI, if_false]
      by_cases hB : e.type = CONFIG_TYPE_BOOL
      · simp only [hB, if_true, bne_self_eq_false, Bool.false_or]
        by_cases h1 : atoi c.value = 0
        · simp [h1]
        · by_cases h2 : atoi c.value = 1
          · simp [h2]
          · simp [h1, h2]
      · have hB2 : (e.type != CONFIG_TYPE_BOOL) = true := by simpa using hB
        simp only [hB, if_false, hB2, Bool.true_or, if_true]
        split_ifs <;> rfl
  · have h0 : strncasecmp c.key.toList e.key.toList c.key.toList.length ≠ 0 := by
      intro h
      exact hm ((strncasecmp_eq_zero_iff _ _).mp h)
    rw [if_pos h0]
    simp only [hm, Bool.false_and, Bool.false_eq_true, if_false]

/-- When `config_compare` returns 0 it has assigned nothing. -/
theorem config_compare_snd_of_reject (options : or_options_t) (c : config_line_t)
    (e : config_entry) (h : entry_accepts c e = false) :
    (config_compare options c e.key e.type e.arg).2 = options := by
  have h1 := config_compare_fst options c e
  rw [h] at h1
  simp only [Bool.false_eq_true, if_false] at h1
  unfold config_compare at h1 ⊢
  dsimp only at h1 ⊢
  split_ifs at h1 ⊢ <;> first | rfl | (exfalso; simp at h1)

/-- The chain stops at the first entry that takes the line and performs its
assignment; when no entry takes the line nothing is assigned. -/
theorem config_compare_chain_eq (options : or_options_t) (c : config_line_t)
    (table : List config_entry) :
    config_compare_chain options c table =
      match table.find? (entry_accepts c) with
      | some e => (true, (config_compare options c e.key e.type e.arg).2)
      | none => (false, options) := by
  induction table with
  | nil => rfl
  | cons e es ih =>
    simp only [config_compare_chain, List.find?_cons]
    have h1 := config_compare_fst options c e
    cases ha : entry_accepts c e with
    | true =>
      rw [ha] at h1
      simp only [if_true] at h1
      simp [h1]
    | false =>
      rw [ha] at h1
      simp only [Bool.false_eq_true, if_false] at h1
      simp only [h1, ne_eq, not_true_eq_false, if_false]
      rw [config_compare_snd_of_reject options c e ha]
      exact ih

theorem config_compare_chain_accepted (options : or_options_t) (c : config_line_t) :
    (config_compare_chain options c config_assign_table).1 = line_accepted c := by
  rw [config_compare_chain_eq]
  unfold line_accepted
  cases h : config_assign_table.find? (entry_accepts c) with
  | none =>
    rw [List.find?_eq_none] at h
    symm
    simp only [List.any_eq_false]
    intro x hx
    simpa using h x hx
  | some e =>
    symm
    simp only [List.any_eq_true]
    exact ⟨e, List.mem_of_find?_eq_some h, List.find?_some h⟩

theorem config_compare_chain_rejected (options : or_options_t) (c : config_line_t)
    (h : line_accepted c = false) :
    config_compare_chain options c config_assign_table = (false, options) := by
  rw [config_compare_chain_eq]
  have : config_assign_table.find? (entry_accepts c) = none := by
    rw [List.find?_eq_none]
    unfold line_accepted at h
    simp only [List.any_eq_false] at h
    intro x hx
    simpa using h x hx
  rw [this]


theorem config_assign_cons (options : or_options_t) (c : config_line_t)
    (rest : List config_line_t) :
    config_assign options (c :: rest) =
      if line_accepted c then
        config_assign (config_compare_chain options c config_assign_table).2 rest
      else (-1, options) := by
  have h := config_compare_chain_accepted options c
  cases ha : line_accepted c with
  | true =>
    rw [ha] at h
    simp only [config_assign, h, if_true]
  | false =>
    rw [config_assign, config_compare_chain_rejected options c ha]

theorem config_assign_fst (list : List config_line_t) (options : or_options_t) :
    (config_assign options list).1 = if list.all line_accepted then 0 else -1 := by
  induction list generalizing options with
  | nil => rfl
  | cons c rest ih =>
    rw [config_assign_cons]
    cases ha : line_accepted c with
    | true => simp only [if_true, ih, List.all_cons, ha, Bool.true_and]
    | false => simp [ha]

theorem config_assign_append (pre : List config_line_t) (options : or_options_t)
    (list : List config_line_t) (h : pre.all line_accepted = true) :
    config_assign options (pre ++ list) = config_assign (config_assign options pre).2 list := by
  induction pre generalizing options with
  | nil => rfl
  | cons c rest ih =>
    simp only [List.all_cons, Bool.and_eq_true] at h
    simp only [List.cons_append, config_assign_cons, h.1, if_true]
    exact ih _ h.2

theorem line_accepted_eq_false_iff (c : config_line_t) :
    line_accepted c = false ↔
      (keyword_recognized c = false ∨
        (atoi c.value ≠ 0 ∧ atoi c.value ≠ 1 ∧
          ∀ e ∈ config_assign_table, entry_matches c e = true → e.type = CONFIG_TYPE_BOOL)) := by
  unfold line_accepted keyword_recognized
  simp only [List.any_eq_false, entry_accepts, value_fits, Bool.and_eq_true, Bool.or_eq_true,
    bne_iff_ne, ne_eq, beq_iff_eq, not_and, not_or, Bool.not_eq_true, Decidable.not_not]
  constructor
  · intro h
    by_cases h0 : atoi c.value = 0
    · left
      intro e he
      by_contra hm
      have := h e he (by simpa using hm)
      exact this.1.2 h0
    · by_cases h1 : atoi c.value = 1
      · left
        intro e he
        by_contra hm
        have := h e he (by simpa using hm)
        exact this.2 h1
      · right
        refine ⟨h0, h1, ?_⟩
        intro e he hm
        exact (h e he hm).1.1
  · rintro (h | ⟨h0, h1, h⟩) e he hm
    · rw [h e he] at hm
      exact absurd hm (by simp)
    · exact ⟨⟨h e he hm, h0⟩, h1⟩

/-- C9 as stated fails: the keyword of the line `RunAsDaemon 2` is recognized (it is the
full name of an option of the table), and `config_assign` returns -1 on it. -/
theorem config_assign_rejects_recognized_keyword :
    keyword_recognized ⟨"RunAsDaemon", "2"⟩ = true
      ∧ (config_assign options_zero [⟨"RunAsDaemon", "2"⟩]).1 = -1 := by
  decide

/-- C9, amended: `config_assign` returns -1 exactly when some line is taken by no entry
of the table, which is the case when its key is not a case-insensitive prefix of any
option name, or when `atoi` of its value is neither 0 nor 1 and every option name that
begins with its key is a boolean option; it then stops at the first such line, having
assigned the lines before it and nothing of that line or of the lines after it;
otherwise it returns 0. -/
theorem config_assign_fails_iff_line_rejected (options : or_options_t)
    (list : List config_line_t) :
    ((config_assign options list).1 = -1 ↔ ∃ c ∈ list, line_accepted c = false)
      ∧ ((config_assign options list).1 = 0 ↔ ∀ c ∈ list, line_accepted c = true)
      ∧ (∀ c : config_line_t, line_accepted c = false ↔
          (keyword_recognized c = false ∨
            (atoi c.value ≠ 0 ∧ atoi c.value ≠ 1 ∧
              ∀ e ∈ config_assign_table, entry_matches c e = true →
                e.type = CONFIG_TYPE_BOOL)))
      ∧ (∀ (pre post : List config_line_t) (c : config_line_t),
          list = pre ++ c :: post → (∀ x ∈ pre, line_accepted x = true) →
          line_accepted c = false →
          (config_assign options pre).1 = 0
            ∧ config_assign options list = (-1, (config_assign options pre).2)) := by
  have hfst := config_assign_fst list options
  refine ⟨?_, ?_, line_accepted_eq_false_iff, ?_⟩
  · rw [hfst]
    cases hall : list.all line_accepted with
    | true =>
      simp only [if_true]
      rw [List.all_eq_true] at hall
      constructor
      · intro h; exact absurd h (by decide)
      · rintro ⟨c, hc, hf⟩
        rw [hall c hc] at hf
        exact absurd hf (by simp)
    | false =>
      simp only [Bool.false_eq_true, if_false, true_iff]
      rw [List.all_eq_false] at hall
      obtain ⟨c, hc, hf⟩ := hall
      exact ⟨c, hc, by simpa using hf⟩
  · rw [hfst]
    cases hall : list.all line_accepted with
    | true =>
      simp only [if_true, true_iff]
      rw [List.all_eq_true] at hall
      exact hall
    | false =>
      simp only [Bool.false_eq_true, if_false]
      rw [List.all_eq_false] at hall
      obtain ⟨c, hc, hf⟩ := hall
      constructor
      · intro h; exact absurd h (by decide)
      · intro h
        exact absurd (h c hc) hf
  · intro pre post c hl hpre hc
    have hall : pre.all line_accepted = true := by
      rw [List.all_eq_true]; exact hpre
    refine ⟨by rw [config_assign_fst, hall]; rfl, ?_⟩
    rw [hl, config_assign_append pre options (c :: post) hall, config_assign_cons, hc]
    simp

/-- Witness for C9, amended: `Nickname bob` is assigned, `RunAsDaemon 2` is rejected,
`ORPort 9001` is never reached. -/
theorem config_assign_fails_iff_line_rejected_witness :
    (config_assign options_zero [⟨"Nickname", "bob"⟩]).1 = 0
      ∧ config_assign options_zero
          [⟨"Nickname", "bob"⟩, ⟨"RunAsDaemon", "2"⟩, ⟨"ORPort", "9001"⟩]
        = (-1, (config_assign options_zero [⟨"Nickname", "bob"⟩]).2) :=
  (config_assign_fails_iff_line_rejected options_zero
      [⟨"Nickname", "bob"⟩, ⟨"RunAsDaemon", "2"⟩, ⟨"ORPort", "9001"⟩]).2.2.2
    [⟨"Nickname", "bob"⟩] [⟨"ORPort", "9001"⟩] ⟨"RunAsDaemon", "2"⟩ rfl (by decide) (by decide)


theorem config_assign_table_shadowed :
    bool_entries_shadowed [] config_assign_table = true := by
  decide

theorem config_assign_table_well_typed :
    config_assign_table.all entry_well_typed = true := by
  decide

/-- In a table that passes the check `bool_entries_shadowed`, the first entry that takes
a line is the first entry whose name begins with the line's key. -/
theorem find_accepts_eq_find_matches (c : config_line_t) (rest pre : List config_entry)
    (hok : bool_entries_shadowed pre rest = true)
    (hpre : ∀ a ∈ pre, entry_matches c a = false) (e : config_entry)
    (h : rest.find? (entry_accepts c) = some e) :
    rest.find? (entry_matches c) = some e := by
  induction rest generalizing pre with
  | nil => simp at h
  | cons x xs ih =>
    simp only [bool_entries_shadowed, Bool.and_eq_true] at hok
    cases hm : entry_matches c x with
    | false =>
      have ha : entry_accepts c x = false := by simp [entry_accepts, hm]
      simp only [List.find?_cons, ha] at h
      simp only [List.find?_cons, hm]
      apply ih (pre ++ [x]) hok.2 _ h
      intro a hmem
      rcases List.mem_append.mp hmem with h1 | h1
      · exact hpre a h1
      · simp only [List.mem_singleton] at h1
        rw [h1]; exact hm
    | true =>
      cases hf : value_fits c x.type with
      | true =>
        have ha : entry_accepts c x = true := by simp [entry_accepts, hm, hf]
        simp only [List.find?_cons, ha] at h
        simp only [List.find?_cons, hm]
        exact h
      | false =>
        exfalso
        have ha : entry_accepts c x = false := by simp [entry_accepts, hf]
        simp only [List.find?_cons, ha] at h
        have he_mem : e ∈ xs := List.mem_of_find?_eq_some h
        have he_acc : entry_accepts c e = true := List.find?_some h
        simp only [entry_accepts, Bool.and_eq_true] at he_acc
        simp only [value_fits, Bool.or_eq_false_iff, bne_eq_false_iff_eq, beq_eq_false_iff_ne,
          ne_eq] at hf
        have hxbool : x.type = CONFIG_TYPE_BOOL := hf.1.1
        have he_not : e.type ≠ CONFIG_TYPE_BOOL := by
          intro hb
          have := he_acc.2
          simp only [value_fits, hb, bne_self_eq_false, Bool.false_or, Bool.or_eq_true,
            beq_iff_eq] at this
          rcases this with h0 | h1
          · exact hf.1.2 h0
          · exact hf.2 h1
        have hall := hok.1
        simp only [hxbool, bne_self_eq_false, Bool.false_or, List.all_eq_true,
          Bool.or_eq_true, beq_iff_eq, List.any_eq_true] at hall
        rcases hall e he_mem with hb | ⟨a, ha_mem, ha_pre⟩
        · exact he_not hb
        · have hk := begins_ci_common c.key.toList x.key.toList e.key.toList hm he_acc.1
          have := begins_ci_trans _ _ _ hk ha_pre
          have h2 := hpre a ha_mem
          simp only [entry_matches] at h2
          rw [h2] at this
          exact absurd this (by simp)

/-- What an accepted `config_compare` call stores, and what it leaves alone. -/
theorem config_compare_effect (options : or_options_t) (c : config_line_t) (e : config_entry)
    (hacc : entry_accepts c e = true) (hwt : entry_well_typed e = true) :
    (∀ f, e.arg = option_ref.str f →
        (config_compare options c e.key e.type e.arg).2.str f = some c.value)
      ∧ (∀ f, e.arg = option_ref.int f →
        (config_compare options c e.key e.type e.arg).2.int f = atoi c.value)
      ∧ (e.arg = option_ref.PathlenCoinWeight →
        (config_compare options c e.key e.type e.arg).2.PathlenCoinWeight = atof c.value)
      ∧ (e.arg = option_ref.RendConfigLines →
        (config_compare options c e.key e.type e.arg).2.RendConfigLines
          = { key := c.key, value := c.value } :: options.RendConfigLines)
      ∧ (∀ f, e.arg ≠ option_ref.str f →
        (config_compare options c e.key e.type e.arg).2.str f = options.str f)
      ∧ (∀ f, e.arg ≠ option_ref.int f →
        (config_compare options c e.key e.type e.arg).2.int f = options.int f)
      ∧ (e.arg ≠ option_ref.PathlenCoinWeight →
        (config_compare options c e.key e.type e.arg).2.PathlenCoinWeight
          = options.PathlenCoinWeight)
      ∧ (e.arg ≠ option_ref.RendConfigLines →
        (config_compare options c e.key e.type e.arg).2.RendConfigLines
          = options.RendConfigLines)
      ∧ (config_compare options c e.key e.type e.arg).2.loglevel = options.loglevel := by
  simp only [entry_accepts, entry_matches, Bool.and_eq_true] at hacc
  have h0 : strncasecmp c.key.toList e.key.toList c.key.length = 0 :=
    (strncasecmp_eq_zero_iff c.key.toList e.key.toList).mpr hacc.1
  have hfit := hacc.2
  obtain ⟨key, type, arg⟩ := e
  simp only [value_fits, Bool.or_eq_true, bne_iff_ne, ne_eq, beq_iff_eq] at hfit
  simp only [entry_well_typed] at hwt
  unfold config_compare
  simp only [h0, ne_eq, not_true_eq_false, if_false]
  cases arg with
  | str f =>
    simp only [beq_iff_eq] at hwt
    subst hwt
    simp [CONFIG_TYPE_STRING, CONFIG_TYPE_INT, CONFIG_TYPE_BOOL, store_string]
    intro g hg
    simp [Ne.symm hg]
  | int f =>
    simp only [Bool.or_eq_true, beq_iff_eq] at hwt
    rcases hwt with hwt | hwt
    · subst hwt
      simp [CONFIG_TYPE_INT, store_int]
      intro g hg
      simp [Ne.symm hg]
    · subst hwt
      have hv : ¬ (¬ atoi c.value = 0 ∧ ¬ atoi c.value = 1) := by
        rcases hfit with (h | h) | h
        · exact absurd rfl h
        · simp [h]
        · simp [h]
      simp [CONFIG_TYPE_INT, CONFIG_TYPE_BOOL, store_int, hv]
      intro g hg
      simp [Ne.symm hg]
  | PathlenCoinWeight =>
    simp only [beq_iff_eq] at hwt
    subst hwt
    simp [CONFIG_TYPE_STRING, CONFIG_TYPE_INT, CONFIG_TYPE_BOOL, CONFIG_TYPE_DOUBLE,
      store_double]
  | RendConfigLines =>
    simp only [beq_iff_eq] at hwt
    subst hwt
    simp [CONFIG_TYPE_STRING, CONFIG_TYPE_INT, CONFIG_TYPE_BOOL, CONFIG_TYPE_DOUBLE,
      CONFIG_TYPE_LINELIST, store_lines, load_lines, config_line_prepend]

/-- C10: for every line that `config_assign` accepts, there is a first entry of the
table whose option name begins, case-insensitively, with the line's key; the field of
that entry receives the line's value (the string, `atoi` of it, `atof` of it, or, for
`RendConfigLines`, the line itself in front of the list), and every other field of the
options is left unchanged by that line. -/
theorem config_assign_uses_first_match (options : or_options_t) (c : config_line_t)
    (h : (config_assign options [c]).1 = 0) :
    ∃ e, first_match c = some e
      ∧ (∀ f, e.arg = option_ref.str f →
          (config_assign options [c]).2.str f = some c.value)
      ∧ (∀ f, e.arg = option_ref.int f →
          (config_assign options [c]).2.int f = atoi c.value)
      ∧ (e.arg = option_ref.PathlenCoinWeight →
          (config_assign options [c]).2.PathlenCoinWeight = atof c.value)
      ∧ (e.arg = option_ref.RendConfigLines →
          (config_assign options [c]).2.RendConfigLines
            = { key := c.key, value := c.value } :: options.RendConfigLines)
      ∧ (∀ f, e.arg ≠ option_ref.str f →
          (config_assign options [c]).2.str f = options.str f)
      ∧ (∀ f, e.arg ≠ option_ref.int f →
          (config_assign options [c]).2.int f = options.int f)
      ∧ (e.arg ≠ option_ref.PathlenCoinWeight →
          (config_assign options [c]).2.PathlenCoinWeight = options.PathlenCoinWeight)
      ∧ (e.arg ≠ option_ref.RendConfigLines →
          (config_assign options [c]).2.RendConfigLines = options.RendConfigLines)
      ∧ (config_assign options [c]).2.loglevel = options.loglevel := by
  have hacc : line_accepted c = true := by
    have h1 := config_assign_fst [c] options
    rw [h] at h1
    cases hl : line_accepted c with
    | true => rfl
    | false =>
      simp [hl] at h1
  have hstep : config_assign options [c]
      = (0, (config_compare_chain options c config_assign_table).2) := by
    rw [config_assign_cons, hacc]
    rfl
  have hchain := config_compare_chain_eq options c config_assign_table
  cases hfind : config_assign_table.find? (entry_accepts c) with
  | none =>
    exfalso
    rw [List.find?_eq_none] at hfind
    unfold line_accepted at hacc
    rw [List.any_eq_true] at hacc
    obtain ⟨x, hx, hxa⟩ := hacc
    exact hfind x hx hxa
  | some e =>
    rw [hfind] at hchain
    have hfirst : first_match c = some e :=
      find_accepts_eq_find_matches c config_assign_table [] config_assign_table_shadowed
        (by simp) e hfind
    have hwt : entry_well_typed e = true :=
      (List.all_eq_true.mp config_assign_table_well_typed) e (List.mem_of_find?_eq_some hfind)
    have heff := config_compare_effect options c e (List.find?_some hfind) hwt
    refine ⟨e, hfirst, ?_⟩
    rw [hstep, hchain]
    exact heff

/-- Witness for C10: the abbreviated keyword `d` goes to `DebugLogFile`, the first of
the five options whose names begin with it. -/
theorem config_assign_uses_first_match_witness :
    ∃ e, first_match ⟨"d", "/tmp/log"⟩ = some e
      ∧ (∀ f, e.arg = option_ref.str f →
          (config_assign options_zero [⟨"d", "/tmp/log"⟩]).2.str f = some "/tmp/log")
      ∧ (∀ f, e.arg = option_ref.int f →
          (config_assign options_zero [⟨"d", "/tmp/log"⟩]).2.int f = atoi "/tmp/log")
      ∧ (e.arg = option_ref.PathlenCoinWeight →
          (config_assign options_zero [⟨"d", "/tmp/log"⟩]).2.PathlenCoinWeight
            = atof "/tmp/log")
      ∧ (e.arg = option_ref.RendConfigLines →
          (config_assign options_zero [⟨"d", "/tmp/log"⟩]).2.RendConfigLines
            = { key := "d", value := "/tmp/log" } :: options_zero.RendConfigLines)
      ∧ (∀ f, e.arg ≠ option_ref.str f →
          (config_assign options_zero [⟨"d", "/tmp/log"⟩]).2.str f = options_zero.str f)
      ∧ (∀ f, e.arg ≠ option_ref.int f →
          (config_assign options_zero [⟨"d", "/tmp/log"⟩]).2.int f = options_zero.int f)
      ∧ (e.arg ≠ option_ref.PathlenCoinWeight →
          (config_assign options_zero [⟨"d", "/tmp/log"⟩]).2.PathlenCoinWeight
            = options_zero.PathlenCoinWeight)
      ∧ (e.arg ≠ option_ref.RendConfigLines →
          (config_assign options_zero [⟨"d", "/tmp/log"⟩]).2.RendConfigLines
            = options_zero.RendConfigLines)
      ∧ (config_assign options_zero [⟨"d", "/tmp/log"⟩]).2.loglevel = options_zero.loglevel :=
  config_assign_uses_first_match options_zero ⟨"d", "/tmp/log"⟩ (by decide)


/-! ## Condition variable: the invariant of the counters -/

theorem takeWhile_length_eq_iff {α : Type} (p : α → Bool) (l : List α) :
    (l.takeWhile p).length = l.length ↔ ∀ x ∈ l, p x = true := by
  induction l with
  | nil => simp
  | cons a l ih =>
    cases hp : p a with
    | true =>
      simp only [List.takeWhile_cons, hp, if_true, List.length_cons, add_left_inj, ih,
        List.mem_cons, forall_eq_or_imp, true_and]
    | false =>
      simp only [List.takeWhile_cons, hp, Bool.false_eq_true, if_false, List.length_nil,
        List.length_cons, List.mem_cons, forall_eq_or_imp, false_and, iff_false]
      omega

theorem strspn_eq_length_iff (s accept : String) :
    strspn s accept = s.length ↔ ∀ ch ∈ s.toList, ch ∈ accept.toList := by
  unfold strspn
  have hlen : s.length = s.toList.length := rfl
  rw [hlen, takeWhile_length_eq_iff]
  simp only [List.contains_eq_any_beq, List.any_eq_true, beq_iff_eq, exists_eq_right']

theorem ite_fail_eq_zero (c : Prop) [Decidable c] (r : Int) :
    (if c then (-1 : Int) else r) = 0 ↔ ¬ c ∧ r = 0 := by
  split_ifs with h
  · simp [h]
  · simp [h]

/-- The function `config_compare` never stores `NULL` in a string field. -/
theorem config_compare_str_isSome (options : or_options_t) (c : config_line_t) (key : String)
    (type : Nat) (arg : option_ref) (f : string_option) (h : (options.str f).isSome = true) :
    ((config_compare options c key type arg).2.str f).isSome = true := by
  unfold config_compare
  dsimp only
  split_ifs <;>
    first
    | exact h
    | (cases arg <;> simp only [store_int, store_string, store_double, store_lines] <;>
        first
        | exact h
        | (split_ifs <;> first | rfl | exact h))

theorem config_compare_chain_str_isSome (c : config_line_t) (table : List config_entry)
    (options : or_options_t) (f : string_option) (h : (options.str f).isSome = true) :
    ((config_compare_chain options c table).2.str f).isSome = true := by
  induction table generalizing options with
  | nil => exact h
  | cons e es ih =>
    simp only [config_compare_chain]
    have h1 := config_compare_str_isSome options c e.key e.type e.arg f h
    split_ifs
    · exact h1
    · exact ih _ h1

theorem config_assign_str_isSome (list : List config_line_t) (options : or_options_t)
    (f : string_option) (h : (options.str f).isSome = true) :
    ((config_assign options list).2.str f).isSome = true := by
  induction list generalizing options with
  | nil => exact h
  | cons c rest ih =>
    simp only [config_assign]
    have h1 := config_compare_chain_str_isSome c config_assign_table options f h
    split_ifs
    · exact ih _ h1
    · exact h1

theorem same_but_address_refl (o : or_options_t) : same_but_address o o :=
  ⟨rfl, fun _ _ => rfl, rfl, rfl, rfl⟩

theorem same_but_address_store (o2 o1 : or_options_t) (v : Option String)
    (h : same_but_address o2 o1) :
    same_but_address (store_string o2 (.str .Address) v) o1 := by
  obtain ⟨h1, h2, h3, h4, h5⟩ := h
  refine ⟨h1, ?_, h3, h4, h5⟩
  intro f hf
  simp only [store_string, hf, if_false]
  exact h2 f hf

theorem resolve_my_address_finish_frame (env : config_env) (e : Bool) (ip : Nat)
    (o2 o1 : or_options_t) (h : same_but_address o2 o1) :
    same_but_address (resolve_my_address_finish env e ip o2).2 o1 := by
  unfold resolve_my_address_finish
  split_ifs
  · exact h
  · exact same_but_address_store _ _ _ h

theorem resolve_my_address_ip_frame (env : config_env) (e : Bool)
    (o2 o1 : or_options_t) (h : same_but_address o2 o1) :
    same_but_address (resolve_my_address_ip env e o2).2 o1 := by
  unfold resolve_my_address_ip
  dsimp only
  split
  · exact resolve_my_address_finish_frame env e _ o2 o1 h
  · split
    · exact h
    · exact resolve_my_address_finish_frame env false _ o2 o1 h

/-- The function `resolve_my_address` changes nothing but `Address`. -/
theorem resolve_my_address_frame (env : config_env) (options : or_options_t) :
    same_but_address (resolve_my_address env options).2 options := by
  unfold resolve_my_address
  split
  · split
    · exact same_but_address_refl options
    · exact resolve_my_address_ip_frame env false _ options
        (same_but_address_store _ _ _ (same_but_address_refl options))
  · exact resolve_my_address_ip_frame env true options options (same_but_address_refl options)

theorem getconfig_loglevel_spec (k : or_constants) (options : or_options_t) :
    (getconfig_loglevel k options).1.int = options.int
      ∧ (getconfig_loglevel k options).1.str = options.str
      ∧ ((getconfig_loglevel k options).2 = false → (options.str .LogLevel).isSome = true →
          ((options.str .LogLevel = some "err"
              ∧ (getconfig_loglevel k options).1.loglevel = k.LOG_ERR)
            ∨ (options.str .LogLevel = some "warn"
              ∧ (getconfig_loglevel k options).1.loglevel = k.LOG_WARN)
            ∨ (options.str .LogLevel = some "notice"
              ∧ (getconfig_loglevel k options).1.loglevel = k.LOG_NOTICE)
            ∨ (options.str .LogLevel = some "info"
              ∧ (getconfig_loglevel k options).1.loglevel = k.LOG_INFO)
            ∨ (options.str .LogLevel = some "debug"
              ∧ (getconfig_loglevel k options).1.loglevel = k.LOG_DEBUG))) := by
  unfold getconfig_loglevel
  cases h : options.str .LogLevel with
  | none => simp
  | some l =>
    simp only
    split_ifs with e1 e2 e3 e4 e5
    · subst e1; simp
    · subst e2; simp
    · subst e3; simp
    · subst e4; simp
    · subst e5; simp
    · simp


theorem getconfig_nickname_accepted (k : or_constants) (options : or_options_t)
    (h : getconfig_nickname_refused k options = false) (hor : options.int .ORPort ≠ 0) :
    ∃ nick, options.str .Nickname = some nick
      ∧ (∀ ch ∈ nick.toList, ch ∈ k.LEGAL_NICKNAME_CHARACTERS.toList)
      ∧ nick.length ≤ k.MAX_NICKNAME_LEN := by
  unfold getconfig_nickname_refused at h
  simp only [hor, ne_eq, not_false_eq_true, if_true] at h
  cases hn : options.str .Nickname with
  | none => simp [hn] at h
  | some nick =>
    simp only [hn, Bool.or_eq_false_iff, decide_eq_false_iff_not, ne_eq, not_not, not_lt] at h
    exact ⟨nick, rfl, (strspn_eq_length_iff nick _).mp h.1, h.2⟩

/-- When the validation part of `getconfig` leaves `result` at 0 and `LogLevel` is not
`NULL`, the options it leaves satisfy every validated constraint. -/
theorem getconfig_validate_ok (k : or_constants) (env : config_env) (options : or_options_t)
    (hk : 1 ≤ k.MIN_ONION_KEY_LIFETIME / 2)
    (hlog : (options.str .LogLevel).isSome = true)
    (h : (getconfig_validate k env options).1 = 0) :
    options_validated k (getconfig_validate k env options).2 := by
  obtain ⟨l1, l2, l3⟩ := getconfig_loglevel_spec k options
  have hra := resolve_my_address_frame env (getconfig_loglevel k options).1
  generalize hlv : getconfig_loglevel k options = lv at h l1 l2 l3 hra ⊢
  obtain ⟨o1, bad⟩ := lv
  simp only at l1 l2 l3 hra
  have hra2 : same_but_address
      (if o1.int .ORPort ≠ 0 then resolve_my_address env o1 else (0, o1)).2 o1 := by
    split_ifs
    · exact hra
    · exact same_but_address_refl o1
  simp only [getconfig_validate, hlv, ite_fail_eq_zero] at h ⊢
  generalize hrav : (if o1.int .ORPort ≠ 0 then resolve_my_address env o1 else (0, o1)) = ra
    at h hra2 ⊢
  obtain ⟨rv, o2⟩ := ra
  obtain ⟨f1, f2, f3, _, _⟩ := hra2
  simp only at f1 f2 f3 h ⊢
  simp only [f1] at h ⊢
  obtain ⟨_, hkeep, hdf1, hmax2, hmax1, _, hdirrec, hdir, hboth, hsocks, _, hnick, hdata,
    hor, hbad⟩ := h
  have hbad' : bad = false := by simpa using hbad.1
  have hnick' : getconfig_nickname_refused k o1 = false := by simpa using hnick
  have hlogs := l3 hbad' hlog
  rw [f2 string_option.RecommendedVersions (by decide)] at hdirrec
  have hint : ∀ (o : or_options_t) (g : int_option), g ≠ int_option.DirFetchPostPeriod →
      (store_int o (.int .DirFetchPostPeriod) ((k.MIN_ONION_KEY_LIFETIME / 2 : Nat) : Int)).int g
        = o.int g := by
    intro o g hg
    simp [store_int, hg]
  unfold options_validated
  by_cases hclip : ((k.MIN_ONION_KEY_LIFETIME / 2 : Nat) : Int) < o1.int .DirFetchPostPeriod
  · simp only [hclip, if_true] at hkeep ⊢
    simp only [store_int, f1] at hkeep ⊢
    simp only [if_true, reduceCtorEq, if_false] at hkeep ⊢
    refine ⟨by omega, by omega, by omega, by omega, by omega, by omega, ?_, le_refl _,
      by omega, ?_, ?_, ?_⟩
    · exact_mod_cast hk
    · rw [f2 _ (by decide), f3, l2]
      exact hlogs
    · intro hor2
      refine ⟨?_, ?_⟩
      · rw [f2 _ (by decide)]
        intro hnone
        exact hdata ⟨hor2, hnone⟩
      · rw [f2 _ (by decide)]
        exact getconfig_nickname_accepted k o1 hnick' hor2
    · intro hd
      rw [f2 _ (by decide)]
      intro hnone
      exact hdirrec ⟨hd, hnone⟩
  · simp only [hclip, if_false] at hkeep ⊢
    simp only [f1] at hkeep ⊢
    refine ⟨by omega, by omega, by omega, by omega, by omega, by omega, by omega, by omega,
      by omega, ?_, ?_, ?_⟩
    · rw [f2 _ (by decide), f3, l2]
      exact hlogs
    · intro hor2
      refine ⟨?_, ?_⟩
      · rw [f2 _ (by decide)]
        intro hnone
        exact hdata ⟨hor2, hnone⟩
      · rw [f2 _ (by decide)]
        exact getconfig_nickname_accepted k o1 hnick' hor2
    · intro hd
      rw [f2 _ (by decide)]
      intro hnone
      exact hdirrec ⟨hd, hnone⟩


theorem getconfig_read_file_str_isSome (k : or_constants) (env : config_env)
    (argv : List String) (options : or_options_t) (f : string_option)
    (h : (options.str f).isSome = true) :
    ((getconfig_read_file k env argv options).2.str f).isSome = true := by
  unfold getconfig_read_file
  dsimp only
  split
  · simp only [config_assign_default, store_int]
    split_ifs <;> exact h
  · split_ifs
    · exact h
    · exact config_assign_str_isSome _ options f h
    · exact config_assign_str_isSome _ options f h

/-- C11: whenever `getconfig` returns 0, the options it leaves satisfy every validated
constraint: `ORPort`, `SocksPort`, `DirPort` are not negative, `SocksPort` and `ORPort`
are not both 0, `1 <= MaxConn < MAXCONNECTIONS`,
`1 <= DirFetchPostPeriod <= MIN_ONION_KEY_LIFETIME/2`, `KeepalivePeriod >= 1`,
`LogLevel` is one of err, warn, notice, info, debug with `loglevel` the level it names,
a non-zero `ORPort` comes with `DataDirectory` and with a `Nickname` of legal
characters, at most `MAX_NICKNAME_LEN` of them, and a non-zero `DirPort` comes with
`RecommendedVersions`. The constant `MIN_ONION_KEY_LIFETIME`, which is not defined in
`config.c`, is taken to be at least 2. -/
theorem getconfig_success_validated (k : or_constants) (env : config_env)
    (statics : getconfig_statics) (argv : List String) (options : or_options_t)
    (hk : 1 ≤ k.MIN_ONION_KEY_LIFETIME / 2)
    (h : (getconfig k env statics argv options).1 = getconfig_outcome.returned 0) :
    options_validated k (getconfig k env statics argv options).2.2 := by
  unfold getconfig at h ⊢
  dsimp only at h ⊢
  generalize (if statics.first_load = true then argv else statics.backup_argv) = argv1 at h ⊢
  generalize (if statics.first_load = true then none else options.str .PidFile) = pp at h ⊢
  generalize (if statics.first_load = true then 0 else options.int .RunAsDaemon) = prd at h ⊢
  generalize (if statics.first_load = true then -1 else options.int .ORPort) = pop at h ⊢
  have hinit : ((init_options k).str .LogLevel).isSome = true := rfl
  have hrf := getconfig_read_file_str_isSome k env argv1 (init_options k) .LogLevel hinit
  have hcl := config_assign_str_isSome (config_get_commandlines argv1)
    (getconfig_read_file k env argv1 (init_options k)).2 .LogLevel hrf
  by_cases c1 : 1 < argv1.length ∧ (argv1.getD 1 "" = "-h" ∨ argv1.getD 1 "" = "--help")
  · rw [if_pos c1] at h
    simp at h
  rw [if_neg c1] at h ⊢
  by_cases c2 : 1 < argv1.length ∧ argv1.getD 1 "" = "--version"
  · rw [if_pos c2] at h
    simp at h
  rw [if_neg c2] at h ⊢
  by_cases c3 : (!(getconfig_read_file k env argv1 (init_options k)).1) = true
  · rw [if_pos c3] at h
    simp at h
  rw [if_neg c3] at h ⊢
  generalize config_assign (getconfig_read_file k env argv1 (init_options k)).2
    (config_get_commandlines argv1) = r at h hcl ⊢
  by_cases c4 : r.1 < 0
  · rw [if_pos c4] at h
    simp at h
  rw [if_neg c4] at h ⊢
  have hrest : ∀ pp2 pid2 : Option String,
      (if pp2.isSome = true ∧ pp2 ≠ pid2 then
          (getconfig_outcome.returned (-1),
            ({ first_load := false, backup_argv := argv1 } : getconfig_statics), r.2)
        else if prd ≠ 0 ∧ r.2.int .RunAsDaemon = 0 then
          (getconfig_outcome.returned (-1), { first_load := false, backup_argv := argv1 }, r.2)
        else if pop = 0 ∧ 0 < r.2.int .ORPort then
          (getconfig_outcome.returned (-1), { first_load := false, backup_argv := argv1 }, r.2)
        else
          (getconfig_outcome.returned (getconfig_validate k env r.2).1,
            { first_load := false, backup_argv := argv1 },
            (getconfig_validate k env r.2).2)).1 = getconfig_outcome.returned 0 →
      options_validated k
        (if pp2.isSome = true ∧ pp2 ≠ pid2 then
          (getconfig_outcome.returned (-1),
            ({ first_load := false, backup_argv := argv1 } : getconfig_statics), r.2)
        else if prd ≠ 0 ∧ r.2.int .RunAsDaemon = 0 then
          (getconfig_outcome.returned (-1), { first_load := false, backup_argv := argv1 }, r.2)
        else if pop = 0 ∧ 0 < r.2.int .ORPort then
          (getconfig_outcome.returned (-1), { first_load := false, backup_argv := argv1 }, r.2)
        else
          (getconfig_outcome.returned (getconfig_validate k env r.2).1,
            { first_load := false, backup_argv := argv1 },
            (getconfig_validate k env r.2).2)).2.2 := by
    intro pp2 pid2 h2
    split_ifs at h2 ⊢ with d1 d2 d3
    · simp at h2
    · simp at h2
    · simp at h2
    · simp only [getconfig_outcome.returned.injEq] at h2
      exact getconfig_validate_ok k env r.2 hk hcl h2
  cases hp : pp with
  | none =>
    rw [hp] at h
    exact hrest none _ h
  | some p =>
    rw [hp] at h
    cases hq : r.2.str .PidFile with
    | none =>
      rw [hq] at h
      simp at h
    | some q =>
      rw [hq] at h
      exact hrest (some p) (some q) h

/-- Witness for C11: the first call with no arguments and no configuration file; the
defaults of a client are validated. -/
theorem getconfig_success_validated_witness :
    options_validated sample_constants
      (getconfig sample_constants sample_env ⟨true, []⟩ ["tor"] options_zero).2.2 :=
  getconfig_success_validated sample_constants sample_env ⟨true, []⟩ ["tor"] options_zero
    (by decide) (by decide)


/-- With the documented command line `tor -f <torrc> [args]` both passes agree: the scan
of `getconfig` selects `<torrc>` and `config_get_commandlines` skips the two
arguments. -/
theorem config_get_commandlines_skips_leading_f (prog fname : String) (rest : List String) :
    getconfig_scan ((prog :: "-f" :: fname :: rest).drop 1) = some fname
      ∧ config_get_commandlines (prog :: "-f" :: fname :: rest)
        = config_get_commandlines (prog :: rest) := by
  constructor
  · simp [getconfig_scan]
  · simp [config_get_commandlines, config_get_commandlines_loop]

/-- C13: for the command line `tor Nickname -f torrc bob` the scan of `getconfig`
finds `-f` at `argv[2]` and selects `torrc` as the configuration file, while
`config_get_commandlines`, which steps through `argv` in pairs, takes `-f` as the value
of `Nickname` and `torrc` as a key. -/
theorem config_get_commandlines_takes_config_file :
    getconfig_scan (["tor", "Nickname", "-f", "torrc", "bob"].drop 1) = some "torrc"
      ∧ config_get_commandlines ["tor", "Nickname", "-f", "torrc", "bob"]
        = [⟨"torrc", "bob"⟩, ⟨"Nickname", "-f"⟩] := by
  decide

theorem config_get_lines_loop_eq (lines front : List config_line_t) :
    config_get_lines_loop front lines = lines.reverse ++ front := by
  induction lines generalizing front with
  | nil => rfl
  | cons l rest ih =>
    simp only [config_get_lines_loop, config_line_prepend, ih, List.reverse_cons,
      List.append_assoc, List.singleton_append]

theorem hidden_service_names_arg :
    config_assign_table.all (fun e =>
      hidden_service_names.contains e.key == decide (e.arg = option_ref.RendConfigLines))
      = true := by
  decide

/-- An accepted line goes in front of `RendConfigLines` when it is a hidden service
line and leaves the list alone otherwise. -/
theorem config_compare_chain_rend_lines (options : or_options_t) (c : config_line_t)
    (hacc : line_accepted c = true) :
    (config_compare_chain options c config_assign_table).2.RendConfigLines
      = if hidden_service_line c then c :: options.RendConfigLines
        else options.RendConfigLines := by
  rw [config_compare_chain_eq]
  cases hfind : config_assign_table.find? (entry_accepts c) with
  | none =>
    exfalso
    rw [List.find?_eq_none] at hfind
    unfold line_accepted at hacc
    rw [List.any_eq_true] at hacc
    obtain ⟨x, hx, hxa⟩ := hacc
    exact hfind x hx hxa
  | some e =>
    have hmem : e ∈ config_assign_table := List.mem_of_find?_eq_some hfind
    have hfirst : first_match c = some e :=
      find_accepts_eq_find_matches c config_assign_table [] config_assign_table_shadowed
        (by simp) e hfind
    have hwt : entry_well_typed e = true :=
      (List.all_eq_true.mp config_assign_table_well_typed) e hmem
    have hname := (List.all_eq_true.mp hidden_service_names_arg) e hmem
    simp only [beq_iff_eq] at hname
    obtain ⟨_, _, _, hrend, _, _, _, hother, _⟩ :=
      config_compare_effect options c e (List.find?_some hfind) hwt
    simp only [hidden_service_line, hfirst, hname]
    by_cases harg : e.arg = option_ref.RendConfigLines
    · simp only [harg, decide_True, if_true]
      rw [← harg]
      exact hrend harg
    · simp only [harg, decide_False, Bool.false_eq_true, if_false]
      exact hother harg

theorem config_assign_reverse_rend_lines (lines : List config_line_t)
    (options : or_options_t) (hacc : ∀ c ∈ lines, line_accepted c = true) :
    (config_assign options lines.reverse).1 = 0
      ∧ (config_assign options lines.reverse).2.RendConfigLines
        = lines.filter hidden_service_line ++ options.RendConfigLines := by
  have hall : lines.reverse.all line_accepted = true := by
    rw [List.all_eq_true]
    intro c hc
    exact hacc c (List.mem_reverse.mp hc)
  refine ⟨by rw [config_assign_fst, hall]; rfl, ?_⟩
  induction lines with
  | nil => rfl
  | cons l rest ih =>
    have hrest : ∀ c ∈ rest, line_accepted c = true :=
      fun c hc => hacc c (List.mem_cons_of_mem _ hc)
    have hl : line_accepted l = true := hacc l (List.mem_cons_self _ _)
    have hall2 : rest.reverse.all line_accepted = true := by
      rw [List.all_eq_true]
      intro c hc
      exact hrest c (List.mem_reverse.mp hc)
    have ih2 := ih hrest hall2
    rw [List.reverse_cons, config_assign_append rest.reverse options [l] hall2,
      config_assign_cons, hl]
    simp only [if_true, config_assign]
    rw [config_compare_chain_rend_lines _ l hl, ih2]
    cases hh : hidden_service_line l with
    | true => simp [List.filter_cons, hh]
    | false => simp [List.filter_cons, hh]

/-- C14 as stated fails: both lines of the file `HiddenServiceDir /x`, `RunAsDaemon 2`
have recognized keywords, but `config_assign`, which meets `RunAsDaemon 2` first in the
reversed list, stops there, and `RendConfigLines` stays empty. -/
theorem config_assign_rend_lines_lost :
    (∀ c ∈ [(⟨"HiddenServiceDir", "/x"⟩ : config_line_t), ⟨"RunAsDaemon", "2"⟩],
        keyword_recognized c = true)
      ∧ (config_assign options_zero
          (config_get_lines ⟨[⟨"HiddenServiceDir", "/x"⟩, ⟨"RunAsDaemon", "2"⟩], 0⟩)).2.RendConfigLines
        ≠ [(⟨"HiddenServiceDir", "/x"⟩ : config_line_t), ⟨"RunAsDaemon", "2"⟩].filter
            hidden_service_line ++ options_zero.RendConfigLines := by
  decide

/-- C14, amended: for every sequence of config lines in file order that `config_assign`
accepts (each line is taken by some entry of the table), `config_get_lines` builds the
reversed list, and running `config_assign` on it with `RendConfigLines` initially `R`
returns 0 and leaves `RendConfigLines` equal to the HiddenServiceDir,
HiddenServicePort, HiddenServiceNodes and HiddenServiceExcludeNodes lines of the file,
in file order, followed by `R`. -/
theorem config_assign_rend_lines_in_file_order (options : or_options_t) (f : config_file)
    (hres : ¬ f.last_result < 0) (hacc : ∀ c ∈ f.lines, line_accepted c = true) :
    config_get_lines f = f.lines.reverse
      ∧ (config_assign options (config_get_lines f)).1 = 0
      ∧ (config_assign options (config_get_lines f)).2.RendConfigLines
        = f.lines.filter hidden_service_line ++ options.RendConfigLines := by
  have hlines : config_get_lines f = f.lines.reverse := by
    simp only [config_get_lines, hres, if_false, config_get_lines_loop_eq, List.append_nil]
  rw [hlines]
  exact ⟨rfl, config_assign_reverse_rend_lines f.lines options hacc⟩

/-- Witness for C14, amended: a file with two hidden service lines around a `Nickname`
line, read into options that already hold one line. -/
theorem config_assign_rend_lines_in_file_order_witness :
    config_get_lines
        ⟨[⟨"HiddenServiceDir", "/x"⟩, ⟨"Nickname", "bob"⟩, ⟨"hiddenservicep", "80"⟩], 0⟩
        = [(⟨"HiddenServiceDir", "/x"⟩ : config_line_t), ⟨"Nickname", "bob"⟩,
            ⟨"hiddenservicep", "80"⟩].reverse
      ∧ (config_assign { options_zero with RendConfigLines := [⟨"HiddenServiceDir", "/old"⟩] }
          (config_get_lines
            ⟨[⟨"HiddenServiceDir", "/x"⟩, ⟨"Nickname", "bob"⟩, ⟨"hiddenservicep", "80"⟩],
              0⟩)).1 = 0
      ∧ (config_assign { options_zero with RendConfigLines := [⟨"HiddenServiceDir", "/old"⟩] }
          (config_get_lines
            ⟨[⟨"HiddenServiceDir", "/x"⟩, ⟨"Nickname", "bob"⟩, ⟨"hiddenservicep", "80"⟩],
              0⟩)).2.RendConfigLines
        = [(⟨"HiddenServiceDir", "/x"⟩ : config_line_t), ⟨"Nickname", "bob"⟩,
            ⟨"hiddenservicep", "80"⟩].filter hidden_service_line
          ++ [⟨"HiddenServiceDir", "/old"⟩] :=
  config_assign_rend_lines_in_file_order
    { options_zero with RendConfigLines := [⟨"HiddenServiceDir", "/old"⟩] }
    ⟨[⟨"HiddenServiceDir", "/x"⟩, ⟨"Nickname", "bob"⟩, ⟨"hiddenservicep", "80"⟩], 0⟩
    (by decide) (by decide)


end Tor
